import Mathlib

/-!
# Water-quality validation page: validator and scoring engine

A shallow embedding of `src/pages/Validation.jsx`: the form validator
`validateForm`, the two branches of `validateWaterQuality` (the additive scorer
with the 80/50 classification, and the classification of an uploaded dataset),
the CSV export `convertToCSV` and the ingestion of CSV and JSON files in
`handleFileChange`.

JavaScript numbers are modelled by `JSNum`: a finite value (a rational, every
finite double is one), `NaN`, or one of the two infinities. The relational
operators follow ECMAScript: every comparison with `NaN` is false.
-/

namespace WaterQuality

/-- A JavaScript number: finite, `NaN`, `-Infinity` or `+Infinity`. -/
inductive JSNum where
  | fin (q : ℚ)
  | nan
  | negInf
  | posInf
  deriving DecidableEq

namespace JSNum

/-- JavaScript `a < b` on numbers. -/
def lt : JSNum → JSNum → Bool
  | nan, _ => false
  | _, nan => false
  | fin a, fin b => decide (a < b)
  | fin _, posInf => true
  | fin _, negInf => false
  | negInf, negInf => false
  | negInf, _ => true
  | posInf, _ => false

/-- JavaScript `a <= b` on numbers. -/
def le : JSNum → JSNum → Bool
  | nan, _ => false
  | _, nan => false
  | fin a, fin b => decide (a ≤ b)
  | fin _, posInf => true
  | fin _, negInf => false
  | negInf, _ => true
  | posInf, posInf => true
  | posInf, _ => false

/-- JavaScript `a > b` on numbers. -/
def gt (a b : JSNum) : Bool := lt b a

/-- JavaScript `a >= b` on numbers. -/
def ge (a b : JSNum) : Bool := le b a

end JSNum

/-- The object `values` built by `validateForm`: the nine parsed numbers. -/
structure Values where
  ph : JSNum
  hardness : JSNum
  solids : JSNum
  chloramines : JSNum
  sulfate : JSNum
  conductivity : JSNum
  organic_carbon : JSNum
  trihalomethanes : JSNum
  turbidity : JSNum
  deriving DecidableEq

/-- The three values `predictionResult` takes. -/
inductive Category where
  | Good
  | Moderate
  | Poor
  deriving DecidableEq, Repr

/-- The scorer of `validateWaterQuality` (form branch): `let score = 0`
followed by the nine `if (...) score += ...` statements, in source order. -/
def computeScore (v : Values) : ℚ :=
  let score : ℚ := 0
  -- pH (optimal: 6.5-8.5)
  let score :=
    if v.ph.ge (.fin 6.5) && v.ph.le (.fin 8.5) then score + 30
    else if v.ph.ge (.fin 6.0) && v.ph.le (.fin 9.0) then score + 15
    else score
  -- Hardness (optimal: 150-300 mg/L)
  let score := if v.hardness.ge (.fin 150) && v.hardness.le (.fin 300) then score + 10 else score
  -- Solids (TDS) (optimal: < 600 ppm)
  let score := if v.solids.lt (.fin 600) then score + 10 else score
  -- Chloramines (optimal: < 4 mg/L)
  let score := if v.chloramines.lt (.fin 4) then score + 10 else score
  -- Sulfate (optimal: < 250 mg/L)
  let score := if v.sulfate.lt (.fin 250) then score + 10 else score
  -- Conductivity (optimal: 200-800 μS/cm)
  let score :=
    if v.conductivity.ge (.fin 200) && v.conductivity.le (.fin 800) then score + 10 else score
  -- Organic Carbon (optimal: < 10 mg/L)
  let score := if v.organic_carbon.lt (.fin 10) then score + 10 else score
  -- Trihalomethanes (optimal: < 80 μg/L)
  let score := if v.trihalomethanes.lt (.fin 80) then score + 10 else score
  -- Turbidity (optimal: < 5 NTU)
  let score := if v.turbidity.lt (.fin 5) then score + 10 else score
  score

/-- The classification of `validateWaterQuality` (form branch):
`if (score >= 80) 'Good'; else if (score >= 50) 'Moderate'; else 'Poor'`. -/
def classify (score : ℚ) : Category :=
  if score ≥ 80 then .Good
  else if score ≥ 50 then .Moderate
  else .Poor

/-! ## The form and its validator -/

/-- The nine keys of `formData`, in the order of `requiredFields`. -/
inductive Field where
  | ph
  | hardness
  | solids
  | chloramines
  | sulfate
  | conductivity
  | organic_carbon
  | trihalomethanes
  | turbidity
  deriving DecidableEq, Repr

/-- The key of a field, as written in the source. -/
def Field.name : Field → String
  | .ph => "ph"
  | .hardness => "hardness"
  | .solids => "solids"
  | .chloramines => "chloramines"
  | .sulfate => "sulfate"
  | .conductivity => "conductivity"
  | .organic_carbon => "organic_carbon"
  | .trihalomethanes => "trihalomethanes"
  | .turbidity => "turbidity"

/-- The state `formData`: nine strings, each the `value` of a form input
(set by `handleInputChange`, initially the empty string). -/
structure FormData where
  ph : String
  hardness : String
  solids : String
  chloramines : String
  sulfate : String
  conductivity : String
  organic_carbon : String
  trihalomethanes : String
  turbidity : String
  deriving DecidableEq

/-- The lookup `formData[field]`. -/
def FormData.get (formData : FormData) : Field → String
  | .ph => formData.ph
  | .hardness => formData.hardness
  | .solids => formData.solids
  | .chloramines => formData.chloramines
  | .sulfate => formData.sulfate
  | .conductivity => formData.conductivity
  | .organic_carbon => formData.organic_carbon
  | .trihalomethanes => formData.trihalomethanes
  | .turbidity => formData.turbidity

/-- The lookup `values[field]`. -/
def Values.get (values : Values) : Field → JSNum
  | .ph => values.ph
  | .hardness => values.hardness
  | .solids => values.solids
  | .chloramines => values.chloramines
  | .sulfate => values.sulfate
  | .conductivity => values.conductivity
  | .organic_carbon => values.organic_carbon
  | .trihalomethanes => values.trihalomethanes
  | .turbidity => values.turbidity

/-- The constant `requiredFields` of `validateForm`. -/
def requiredFields : List Field :=
  [.ph, .hardness, .solids, .chloramines, .sulfate, .conductivity, .organic_carbon,
   .trihalomethanes, .turbidity]

/-- JavaScript `!s` on a string: only the empty string is falsy. -/
def jsNot (s : String) : Bool := decide (s = "")

/-- JavaScript `s !== 0` on a string: a string is never strictly equal to a number. -/
def strictNeZero (_s : String) : Bool := true

/-- The filter predicate of `emptyFields`:
`!formData[field] && formData[field] !== 0`. -/
def isEmptyField (formData : FormData) (field : Field) : Bool :=
  jsNot (formData.get field) && strictNeZero (formData.get field)

/-- The local `emptyFields` of `validateForm`. -/
def emptyFields (formData : FormData) : List Field :=
  requiredFields.filter (isEmptyField formData)

/-- What `validateForm` passes to `setError` before it returns `false`. -/
inductive FormError where
  | missing (fields : List Field)
  | phRange
  | hardnessRange
  deriving DecidableEq

/-- The text given to `setError`. -/
def FormError.message : FormError → String
  | .missing fields =>
      "Please fill in all required fields: " ++ ", ".intercalate (fields.map Field.name)
  | .phRange => "pH must be between 0 and 14"
  | .hardnessRange => "Hardness must be between 0 and 1000 mg/L"

/-- The fields an error message is about. -/
def FormError.reportedFields : FormError → List Field
  | .missing fields => fields
  | .phRange => [.ph]
  | .hardnessRange => [.hardness]

/-- The object `values` of `validateForm`: each field of the form through
`parseFloat`. -/
def parsedValues (parseFloat : String → JSNum) (formData : FormData) : Values :=
  { ph := parseFloat formData.ph
    hardness := parseFloat formData.hardness
    solids := parseFloat formData.solids
    chloramines := parseFloat formData.chloramines
    sulfate := parseFloat formData.sulfate
    conductivity := parseFloat formData.conductivity
    organic_carbon := parseFloat formData.organic_carbon
    trihalomethanes := parseFloat formData.trihalomethanes
    turbidity := parseFloat formData.turbidity }

/-- The function `validateForm`. The builtin `parseFloat` is a parameter;
`Except.error e` stands for `setError(e.message); return false` and
`Except.ok values` for `return values`. -/
def validateForm (parseFloat : String → JSNum) (formData : FormData) :
    Except FormError Values :=
  -- Check if any required field is empty
  let emptyFields := emptyFields formData
  if emptyFields.length > 0 then
    .error (.missing emptyFields)
  else
    -- Convert all values to numbers and validate ranges
    let values := parsedValues parseFloat formData
    if values.ph.lt (.fin 0) || values.ph.gt (.fin 14) then
      .error .phRange
    else if values.hardness.lt (.fin 0) || values.hardness.gt (.fin 1000) then
      .error .hardnessRange
    else
      .ok values

/-- The form branch of `validateWaterQuality`: `validateForm`, then the
scorer and the classification; a failed validation publishes no prediction.
(The object `values` is truthy, so `!validatedValues` holds exactly when
`validateForm` returned `false`.) -/
def formPrediction (parseFloat : String → JSNum) (formData : FormData) :
    Except FormError Category :=
  match validateForm parseFloat formData with
  | .error e => .error e
  | .ok validatedValues => .ok (classify (computeScore validatedValues))

/-! ## A model of the builtin `parseFloat`

`parseFloat` is an ECMAScript builtin: it skips leading white space, reads the
longest prefix that is a `StrDecimalLiteral` and yields `NaN` when there is
none. The mathematical value of the literal is kept exact here (the rounding
to the nearest double is not modelled); the general theorems below hold for
every parser. -/

/-- ECMAScript `WhiteSpace` and `LineTerminator` code points. -/
def isJSWhitespace (c : Char) : Bool :=
  let n := c.toNat
  n = 0x09 || n = 0x0A || n = 0x0B || n = 0x0C || n = 0x0D || n = 0x20 || n = 0xA0 ||
  n = 0x1680 || (0x2000 ≤ n && n ≤ 0x200A) || n = 0x2028 || n = 0x2029 || n = 0x202F ||
  n = 0x205F || n = 0x3000 || n = 0xFEFF

/-- A `DecimalDigit`. -/
def isDecimalDigit (c : Char) : Bool := 48 ≤ c.toNat && c.toNat ≤ 57

/-- The value of a run of decimal digits. -/
def digitsToNat (ds : List Char) : ℕ :=
  ds.foldl (fun n c => 10 * n + (c.toNat - 48)) 0

/-- A parsed `StrDecimalLiteral`: `Infinity` with its sign, or a sign, the
digits read as one natural number and a power of ten. -/
inductive StrDecimal where
  | infinity (neg : Bool)
  | decimal (neg : Bool) (mantissa : ℕ) (exp10 : ℤ)
  deriving DecidableEq

/-- An optional `ExponentPart`: its value, `0` when no well-formed exponent
follows. -/
def parseExponent : List Char → ℤ
  | [] => 0
  | e :: rest =>
    if e = 'e' || e = 'E' then
      let signed : Bool × List Char :=
        match rest with
        | '+' :: r => (false, r)
        | '-' :: r => (true, r)
        | r => (false, r)
      let ds := signed.2.takeWhile isDecimalDigit
      if ds.isEmpty then 0
      else if signed.1 then -(digitsToNat ds : ℤ) else (digitsToNat ds : ℤ)
    else 0

/-- The longest prefix that is a `StrUnsignedDecimalLiteral` other than
`Infinity`: mantissa and power of ten. -/
def parseUnsigned (cs : List Char) : Option (ℕ × ℤ) :=
  let intDs := cs.takeWhile isDecimalDigit
  match cs.dropWhile isDecimalDigit with
  | '.' :: rest =>
    let fracDs := rest.takeWhile isDecimalDigit
    if intDs.isEmpty && fracDs.isEmpty then none
    else some (digitsToNat (intDs ++ fracDs),
      parseExponent (rest.dropWhile isDecimalDigit) - (fracDs.length : ℤ))
  | rest => if intDs.isEmpty then none else some (digitsToNat intDs, parseExponent rest)

/-- The longest prefix of the trimmed text that is a `StrDecimalLiteral`. -/
def parseDecimal (s : String) : Option StrDecimal :=
  let trimmed := s.toList.dropWhile isJSWhitespace
  let signed : Bool × List Char :=
    match trimmed with
    | '+' :: r => (false, r)
    | '-' :: r => (true, r)
    | r => (false, r)
  if "Infinity".toList.isPrefixOf signed.2 then some (.infinity signed.1)
  else (parseUnsigned signed.2).map (fun me => .decimal signed.1 me.1 me.2)

/-- The number a parsed literal denotes. -/
def StrDecimal.toJSNum : StrDecimal → JSNum
  | .infinity false => .posInf
  | .infinity true => .negInf
  | .decimal neg mantissa exp10 =>
    .fin ((if neg then -1 else 1) * (mantissa : ℚ) * (10 : ℚ) ^ exp10)

/-- The builtin `parseFloat` on a string. -/
def parseFloat (s : String) : JSNum :=
  match parseDecimal s with
  | none => .nan
  | some d => d.toJSNum

/-! ## The scoring table of the specification -/

/-- Membership of a number in the closed band `[lo, hi]`; `NaN` and the
infinities are in no such band. -/
def inClosedBand (lo hi : ℚ) : JSNum → Bool
  | .fin q => decide (lo ≤ q ∧ q ≤ hi)
  | _ => false

/-- Membership of a number in the open-ended band `< limit`; `NaN` is in no
band. -/
def belowLimit (limit : ℚ) : JSNum → Bool
  | .fin q => decide (q < limit)
  | .negInf => true
  | _ => false

/-- The row of the scoring table for ph: 30 in `[6.5,8.5]`, otherwise 15 in
`[6.0,9.0]`, otherwise 0. -/
def phContribution (ph : JSNum) : ℚ :=
  if inClosedBand 6.5 8.5 ph then 30 else if inClosedBand 6.0 9.0 ph then 15 else 0

/-- The rows of the scoring table for the other eight fields: 10 in the
band, otherwise 0. -/
def bandContribution (inBand : Bool) : ℚ := if inBand then 10 else 0

/-- The optimal band of each field, as the scoring table gives it. -/
def optimalBand : Field → JSNum → Bool
  | .ph => inClosedBand 6.5 8.5
  | .hardness => inClosedBand 150 300
  | .solids => belowLimit 600
  | .chloramines => belowLimit 4
  | .sulfate => belowLimit 250
  | .conductivity => inClosedBand 200 800
  | .organic_carbon => belowLimit 10
  | .trihalomethanes => belowLimit 80
  | .turbidity => belowLimit 5

/-- The score of the specification: the sum of the nine contributions. -/
def specScore (v : Values) : ℚ :=
  phContribution v.ph
    + bandContribution (optimalBand .hardness v.hardness)
    + bandContribution (optimalBand .solids v.solids)
    + bandContribution (optimalBand .chloramines v.chloramines)
    + bandContribution (optimalBand .sulfate v.sulfate)
    + bandContribution (optimalBand .conductivity v.conductivity)
    + bandContribution (optimalBand .organic_carbon v.organic_carbon)
    + bandContribution (optimalBand .trihalomethanes v.trihalomethanes)
    + bandContribution (optimalBand .turbidity v.turbidity)

/-- The sample `s` with the value of one field replaced: two samples
`s.set f x` and `s.set f y` differ in the field `f` only. -/
def Values.set (s : Values) : Field → JSNum → Values
  | .ph, x => { s with ph := x }
  | .hardness, x => { s with hardness := x }
  | .solids, x => { s with solids := x }
  | .chloramines, x => { s with chloramines := x }
  | .sulfate, x => { s with sulfate := x }
  | .conductivity, x => { s with conductivity := x }
  | .organic_carbon, x => { s with organic_carbon := x }
  | .trihalomethanes, x => { s with trihalomethanes := x }
  | .turbidity, x => { s with turbidity := x }

/-! ## The contract of the validator, as the specification words it -/

/-- The test of a range check: a number below `lo` or above `hi`. -/
def outOfRange (lo hi : ℚ) (x : JSNum) : Bool := x.lt (.fin lo) || x.gt (.fin hi)

/-- Whether a field violates the contract: it is empty, or it is ph and its
number is outside `[0,14]`, or it is hardness and its number is outside
`[0,1000]`. -/
def violatesContract (parseFloat : String → JSNum) (formData : FormData) (field : Field) : Bool :=
  decide (formData.get field = "")
    || (decide (field = .ph) && outOfRange 0 14 (parseFloat formData.ph))
    || (decide (field = .hardness) && outOfRange 0 1000 (parseFloat formData.hardness))

/-- Every field that violates the contract, in form order. -/
def contractViolations (parseFloat : String → JSNum) (formData : FormData) : List Field :=
  requiredFields.filter (violatesContract parseFloat formData)

/-- The fields `validateForm` reports: none when it returns the values. -/
def reportedViolations (parseFloat : String → JSNum) (formData : FormData) : List Field :=
  match validateForm parseFloat formData with
  | .ok _ => []
  | .error e => e.reportedFields

/-! ## Concrete inputs -/

/-- A sample inside every optimal band. -/
def sampleAllOptimal : Values :=
  { ph := .fin 7, hardness := .fin 200, solids := .fin 500, chloramines := .fin 2,
    sulfate := .fin 200, conductivity := .fin 400, organic_carbon := .fin 5,
    trihalomethanes := .fin 50, turbidity := .fin 3 }

/-- The form holding the sample of the specification's first example. -/
def formA : FormData :=
  { ph := "7.5", hardness := "200", solids := "500", chloramines := "2.5",
    sulfate := "250", conductivity := "400", organic_carbon := "10",
    trihalomethanes := "50", turbidity := "3.5" }

/-- The sample ph 7.5, hardness 200, solids 500, chloramines 2.5, sulfate 250,
conductivity 400, organic_carbon 10, trihalomethanes 50, turbidity 3.5. -/
def sampleA : Values :=
  { ph := .fin 7.5, hardness := .fin 200, solids := .fin 500, chloramines := .fin 2.5,
    sulfate := .fin 250, conductivity := .fin 400, organic_carbon := .fin 10,
    trihalomethanes := .fin 50, turbidity := .fin 3.5 }

/-- The form of the second example: as `formA` with ph 9.5. -/
def formB : FormData := { formA with ph := "9.5" }

/-- The sample of the second example: as `sampleA` with ph 9.5. -/
def sampleB : Values := { sampleA with ph := .fin 9.5 }

/-- The initial state of the form: all nine fields empty. -/
def formAllEmpty : FormData :=
  { ph := "", hardness := "", solids := "", chloramines := "", sulfate := "",
    conductivity := "", organic_carbon := "", trihalomethanes := "", turbidity := "" }

/-- A form with ph and hardness both out of range. -/
def formBothOutOfRange : FormData := { formA with ph := "15", hardness := "2000" }

/-- A form with an empty field (solids) and ph out of range. -/
def formEmptyAndPh : FormData := { formA with ph := "15", solids := "" }

/-- A form whose ph holds text that is not a number. -/
def formPhNotNumeric : FormData := { formA with ph := "abc" }

/-- A form with ph and hardness at the lower ends of their ranges. -/
def formLowerBounds : FormData := { formA with ph := "0", hardness := "0" }

/-! ## JavaScript values, text and records

Datasets hold JavaScript values: the CSV ingestion builds an array of objects
whose values are strings, `JSON.parse` may yield any JSON value. An object is
kept as the list of its own properties in the order `Object.keys` enumerates
them (array-index keys first, in ascending order, then the other keys in
insertion order). Of the properties inherited from `Object.prototype` only the
accessor `__proto__` matters to an assignment, and `Record.assign` follows it;
reads of inherited properties are outside the model. -/

/-- A JavaScript value, as far as datasets can hold one. -/
inductive JSValue where
  | undefined
  | null
  | bool (b : Bool)
  | number (n : JSNum)
  | string (s : String)
  | array (items : List JSValue)
  | object (props : List (String × JSValue))

/-- The own properties of an object, in `Object.keys` order. -/
abbrev Record := List (String × JSValue)

/-- The double quote character. -/
def dquote : Char := Char.ofNat 34

/-- The backslash character. -/
def backslash : Char := Char.ofNat 92

/-- The line feed character. -/
def lineFeed : Char := Char.ofNat 10

/-- `String.prototype.split` with a one-character separator, on characters. -/
def splitChars (sep : Char) : List Char → List (List Char)
  | [] => [[]]
  | c :: cs =>
    if c = sep then [] :: splitChars sep cs
    else
      match splitChars sep cs with
      | [] => [[c]]
      | piece :: pieces => (c :: piece) :: pieces

/-- `s.split(sep)` for a one-character separator. -/
def jsSplit (sep : Char) (s : String) : List String :=
  (splitChars sep s.toList).map String.mk

/-- `String.prototype.trim`, on characters: white space and line terminators
are removed at both ends. -/
def trimChars (cs : List Char) : List Char :=
  ((cs.dropWhile isJSWhitespace).reverse.dropWhile isJSWhitespace).reverse

/-- `s.trim()`. -/
def jsTrim (s : String) : String := String.mk (trimChars s.toList)

/-- `Array.prototype.join`, on characters. -/
def joinChars (sep : List Char) : List (List Char) → List Char
  | [] => []
  | [piece] => piece
  | piece :: next :: pieces => piece ++ sep ++ joinChars sep (next :: pieces)

/-- `parts.join(sep)` on an array of strings. -/
def jsJoin (sep : String) (parts : List String) : String :=
  String.mk (joinChars sep.toList (parts.map String.toList))

/-- `s.endsWith(suffix)`. -/
def jsEndsWith (s suffix : String) : Bool := suffix.toList.isSuffixOf s.toList

/-- The array index a property key denotes, if any: a canonical decimal
numeral below `2 ^ 32 - 1`. -/
def arrayIndex (key : String) : Option ℕ :=
  let cs := key.toList
  if cs.isEmpty || !cs.all isDecimalDigit then none
  else if decide (1 < cs.length) && decide (cs.head? = some '0') then none
  else if digitsToNat cs < 4294967295 then some (digitsToNat cs) else none

/-- The own property `r[key]`, if there is one. -/
def Record.get? (r : Record) (key : String) : Option JSValue :=
  match r with
  | [] => none
  | (k, v) :: rest => if k = key then some v else Record.get? rest key

/-- The expression `r[key]` on an object: `undefined` when there is no such
own property. -/
def Record.get (r : Record) (key : String) : JSValue :=
  (r.get? key).getD .undefined

/-- `Object.keys(r)`. -/
def Record.keys (r : Record) : List String := r.map Prod.fst

/-- Replacing the value of an existing own property, in place. -/
def Record.replace (key : String) (v : JSValue) : Record → Record
  | [] => []
  | (k, w) :: rest => if k = key then (k, v) :: rest else (k, w) :: Record.replace key v rest

/-- Adding a new array-index key: after the smaller indices, before
everything else. -/
def Record.insertIndexed (n : ℕ) (key : String) (v : JSValue) : Record → Record
  | [] => [(key, v)]
  | (k, w) :: rest =>
    match arrayIndex k with
    | some m =>
      if m < n then (k, w) :: Record.insertIndexed n key v rest
      else (key, v) :: (k, w) :: rest
    | none => (key, v) :: (k, w) :: rest

/-- Defining the own property `key` with the value `v` (what `JSON.parse` does
for each member of an object): an existing property keeps its place, a new one
goes where `Object.keys` will list it. -/
def Record.define (r : Record) (key : String) (v : JSValue) : Record :=
  if (r.get? key).isSome then Record.replace key v r
  else
    match arrayIndex key with
    | some n => Record.insertIndexed n key v r
    | none => r ++ [(key, v)]

/-- The assignment `r[key] = v` on a plain object, one whose prototype is
`Object.prototype`. The key `__proto__`, when it is not an own property,
reaches the accessor inherited from `Object.prototype`, whose setter creates no
own property: it ignores a value that is neither an object nor `null`, and
otherwise changes the prototype. Every other key is defined as an own
property. -/
def Record.assign (r : Record) (key : String) (v : JSValue) : Record :=
  if decide (key = "__proto__") && (r.get? key).isNone then r
  else Record.define r key v

/-- JavaScript truthiness: `undefined`, `null`, `false`, `0`, `NaN` and the
empty string are falsy. -/
def JSValue.truthy : JSValue → Bool
  | .undefined => false
  | .null => false
  | .bool b => b
  | .number (.fin q) => decide (q ≠ 0)
  | .number .nan => false
  | .number _ => true
  | .string s => !(jsNot s)
  | .array _ => true
  | .object _ => true

mutual
/-- The conversion `ToString` (as in `'' + v`); the formatting of numbers is the
builtin `Number::toString`, a parameter. -/
def JSValue.toText (numberToString : JSNum → String) : JSValue → String
  | .undefined => "undefined"
  | .null => "null"
  | .bool true => "true"
  | .bool false => "false"
  | .number n => numberToString n
  | .string s => s
  | .array items => jsJoin "," (JSValue.toTextItems numberToString items)
  | .object _ => "[object Object]"
/-- The pieces `Array.prototype.join` joins: `undefined` and `null` elements
give the empty string. -/
def JSValue.toTextItems (numberToString : JSNum → String) : List JSValue → List String
  | [] => []
  | .undefined :: rest => "" :: JSValue.toTextItems numberToString rest
  | .null :: rest => "" :: JSValue.toTextItems numberToString rest
  | v :: rest => JSValue.toText numberToString v :: JSValue.toTextItems numberToString rest
end

/-- The number of UTF-16 code units of a string (its `length`). -/
def utf16Length (s : String) : ℕ :=
  (s.toList.map (fun c => if c.toNat < 65536 then 1 else 2)).sum

/-- A property read `v[key]` or `v.key` for the keys the page reads (`length`,
`0`, `ph`): `none` stands for the `TypeError` thrown on `undefined` and
`null`. (A string is indexed by character, which is its code unit when the
string has no character outside the basic plane.) -/
def JSValue.getProp (v : JSValue) (key : String) : Option JSValue :=
  match v with
  | .undefined => none
  | .null => none
  | .bool _ => some .undefined
  | .number _ => some .undefined
  | .string s =>
    if key = "length" then some (.number (.fin (utf16Length s)))
    else
      match arrayIndex key with
      | some i =>
        match s.toList[i]? with
        | some c => some (.string (String.mk [c]))
        | none => some .undefined
      | none => some .undefined
  | .array items =>
    if key = "length" then some (.number (.fin items.length))
    else
      match arrayIndex key with
      | some i => some (items.getD i .undefined)
      | none => some .undefined
  | .object props => some (Record.get props key)

/-! ## CSV export -/

/-- The replacement `.replace(/"/g, '\\"')`, on characters: a backslash goes
before every double quote. -/
def escapeQuoteChars : List Char → List Char
  | [] => []
  | c :: cs =>
    if c = dquote then backslash :: dquote :: escapeQuoteChars cs
    else c :: escapeQuoteChars cs

/-- The callback of `headers.map` in `convertToCSV`: the value `row[header]`
turned into text, escaped, and wrapped in double quotes. -/
def csvValue (numberToString : JSNum → String) (row : Record) (header : String) : String :=
  let escaped := String.mk (escapeQuoteChars (JSValue.toText numberToString (row.get header)).toList)
  String.mk ([dquote] ++ escaped.toList ++ [dquote])

/-- The function `convertToCSV`, on an array of objects. (For an array,
`!data` is false, so the guard is `data.length === 0`.) -/
def convertToCSV (numberToString : JSNum → String) (data : List Record) : String :=
  match data with
  | [] => ""
  | first :: _ =>
    -- Get headers from the first object
    let headers := first.keys
    -- Add header row
    let csvRows : List String := [jsJoin "," headers]
    -- Add data rows
    let csvRows := data.foldl
      (fun csvRows row => csvRows ++ [jsJoin "," (headers.map (csvValue numberToString row))])
      csvRows
    jsJoin (String.mk [lineFeed]) csvRows

/-! ## CSV ingestion -/

/-- The expression `values[index] ? values[index].trim() : ''`. -/
def cellAt (values : List String) (index : ℕ) : String :=
  match values[index]? with
  | some value => if jsNot value then "" else jsTrim value
  | none => ""

/-- The `headers.forEach` loop of the CSV branch, from position `index` on:
`entry[header.trim()] = values[index] ? values[index].trim() : ''`. -/
def fillEntry (values : List String) : ℕ → List String → Record → Record
  | _, [], entry => entry
  | index, header :: headers, entry =>
    fillEntry values (index + 1) headers
      (entry.assign (jsTrim header) (.string (cellAt values index)))

/-- The object `entry` built for one line. -/
def buildEntry (headers : List String) (line : String) : Record :=
  let values := jsSplit ',' line
  fillEntry values 0 headers []

/-- The `for` loop of the CSV branch over `lines[1]`, `lines[2]`, ...: blank
lines are skipped, every other line pushes its entry. -/
def collectEntries (headers : List String) : List String → List Record → List Record
  | [], data => data
  | line :: lines, data =>
    if jsTrim line = "" then collectEntries headers lines data
    else collectEntries headers lines (data ++ [buildEntry headers line])

/-- The CSV branch of the `onload` handler: the array given to
`setDatasetData`. (`split` never returns an empty array, so `lines[0]` is a
string.) -/
def parseCSV (content : String) : List Record :=
  let lines := jsSplit lineFeed content
  let headers := jsSplit ',' (lines.headD "")
  collectEntries headers lines.tail []

/-- An array of objects as a JavaScript value. -/
def datasetValue (data : List Record) : JSValue := .array (data.map JSValue.object)

/-! ## Session state and file ingestion -/

/-- The two values of `activeTab`. -/
inductive ActiveTab where
  | form
  | file
  deriving DecidableEq

/-- What ends up in the `error` state. -/
inductive AppError where
  | form (e : FormError)
  | parseFile
  | noDataset
  | typeError
  deriving DecidableEq

/-- The text of an error; the message of a `TypeError` is the engine's. -/
def AppError.message (typeErrorText : String) : AppError → String
  | .form e => e.message
  | .parseFile => "Error parsing file. Please check the file format."
  | .noDataset => "Please upload a dataset or use the default dataset"
  | .typeError =>
    if jsNot typeErrorText then "Error validating water quality. Please try again."
    else typeErrorText

/-- The state of the component, as far as ingestion and validation use it. -/
structure Session where
  selectedFile : Option String
  datasetData : JSValue
  useDefaultDataset : Bool
  formData : FormData
  prediction : Option Category
  loading : Bool
  error : Option AppError
  activeTab : ActiveTab
  showTable : Bool
  tableData : JSValue

/-- The initial state (`useState(...)`). -/
def Session.initial : Session :=
  { selectedFile := none
    datasetData := .null
    useDefaultDataset := false
    formData :=
      { ph := "", hardness := "", solids := "", chloramines := "", sulfate := "",
        conductivity := "", organic_carbon := "", trihalomethanes := "", turbidity := "" }
    prediction := none
    loading := false
    error := none
    activeTab := .form
    showTable := false
    tableData := .array [] }

/-- The synchronous part of `handleFileChange` for a chosen file:
`setSelectedFile(file); setUseDefaultDataset(false)`. -/
def selectFile (st : Session) (fileName : String) : Session :=
  { st with selectedFile := some fileName, useDefaultDataset := false }

/-- The handler `reader.onload` of `handleFileChange`. The builtin `JSON.parse`
is a parameter: `Except.error` stands for the `SyntaxError` it throws, which
the `catch` turns into `setError(...)`. -/
def readerOnload (jsonParse : String → Except String JSValue) (st : Session)
    (fileName content : String) : Session :=
  if jsEndsWith fileName ".csv" then
    -- Simple CSV parsing (for demonstration)
    { st with datasetData := datasetValue (parseCSV content) }
  else if jsEndsWith fileName ".json" then
    match jsonParse content with
    | .ok value => { st with datasetData := value }
    | .error _ => { st with error := some .parseFile }
  else st

/-- The function `handleFileChange` for a chosen file, through the completion
of the read. -/
def handleFileChange (jsonParse : String → Except String JSValue) (st : Session)
    (fileName content : String) : Session :=
  readerOnload jsonParse (selectFile st fileName) fileName content

/-- The function `handleUseDefaultDataset`. -/
def handleUseDefaultDataset (st : Session) : Session :=
  { st with
    useDefaultDataset := true
    selectedFile := none
    datasetData := datasetValue
      [[("ph", .string "7.5"), ("hardness", .string "200"), ("solids", .string "500"),
        ("chloramines", .string "2.5"), ("sulfate", .string "250"),
        ("conductivity", .string "400"), ("organic_carbon", .string "10"),
        ("trihalomethanes", .string "50"), ("turbidity", .string "3.5")],
       [("ph", .string "6.8"), ("hardness", .string "180"), ("solids", .string "480"),
        ("chloramines", .string "2.8"), ("sulfate", .string "230"),
        ("conductivity", .string "380"), ("organic_carbon", .string "9.5"),
        ("trihalomethanes", .string "45"), ("turbidity", .string "3.2")]] }

/-! ## Dataset mode and the published result -/

/-- The builtin `parseFloat` on any value: `parseFloat(ToString(v))`. For a
number the text `ToString` gives parses back to that number. -/
def parseFloatValue (parseFloat : String → JSNum) (numberToString : JSNum → String)
    (v : JSValue) : JSNum :=
  match v with
  | .number n => n
  | v => parseFloat (v.toText numberToString)

/-- The expression `a || b`. -/
def jsOr (a b : JSValue) : JSValue := if a.truthy then a else b

/-- The guard `!datasetData || datasetData.length === 0` of the file branch.
(A falsy value is never an object, so the read of `length` cannot throw.) -/
def datasetMissing (datasetData : JSValue) : Bool :=
  !datasetData.truthy ||
    (match datasetData.getProp "length" with
     | some (.number n) => decide (n = .fin 0)
     | _ => false)

/-- The classification of the file branch, from the number `ph` of the first
record. -/
def classifyPh (ph : JSNum) : Category :=
  if ph.ge (.fin 6.5) && ph.le (.fin 8.5) then .Good
  else if ph.ge (.fin 6.0) && ph.le (.fin 9.0) then .Moderate
  else .Poor

/-- The file branch of `validateWaterQuality` up to `predictionResult`:
the guard that throws, then
`parseFloat(datasetData[0].ph || 0)` and the classification. -/
def datasetPrediction (parseFloat : String → JSNum) (numberToString : JSNum → String)
    (datasetData : JSValue) : Except AppError Category :=
  if datasetMissing datasetData then .error .noDataset
  else
    -- Simple validation based on the first record
    match datasetData.getProp "0" with
    | none => .error .typeError
    | some first =>
      match first.getProp "ph" with
      | none => .error .typeError
      | some phValue =>
        let ph := parseFloatValue parseFloat numberToString (jsOr phValue (.number (.fin 0)))
        .ok (classifyPh ph)

/-- The `state` handed to `navigate('/results', ...)`. -/
structure ResultPayload where
  prediction : Category
  formData : Option FormData
  tableData : JSValue

/-- The function `validateWaterQuality`, without its delay: the new state and
the payload it publishes, if any. -/
def validateWaterQuality (parseFloat : String → JSNum) (numberToString : JSNum → String)
    (st : Session) : Session × Option ResultPayload :=
  let st := { st with loading := true, error := none, prediction := none, showTable := false }
  match st.activeTab with
  | .form =>
    match formPrediction parseFloat st.formData with
    | .error e => ({ st with error := some (.form e), loading := false }, none)
    | .ok predictionResult =>
      ({ st with prediction := some predictionResult, loading := false },
        some { prediction := predictionResult, formData := some st.formData, tableData := .null })
  | .file =>
    if datasetMissing st.datasetData then
      ({ st with error := some .noDataset, loading := false }, none)
    else
      -- Set table data for display
      let st := { st with tableData := st.datasetData, showTable := true }
      match datasetPrediction parseFloat numberToString st.datasetData with
      | .error e => ({ st with error := some e, loading := false }, none)
      | .ok predictionResult =>
        ({ st with prediction := some predictionResult, loading := false },
          some { prediction := predictionResult, formData := none, tableData := st.datasetData })

/-- A record of the nine fields read as a Sample: each field through
`parseFloat`. -/
def rowSample (parseFloat : String → JSNum) (numberToString : JSNum → String)
    (row : Record) : Values :=
  { ph := parseFloatValue parseFloat numberToString (row.get "ph")
    hardness := parseFloatValue parseFloat numberToString (row.get "hardness")
    solids := parseFloatValue parseFloat numberToString (row.get "solids")
    chloramines := parseFloatValue parseFloat numberToString (row.get "chloramines")
    sulfate := parseFloatValue parseFloat numberToString (row.get "sulfate")
    conductivity := parseFloatValue parseFloat numberToString (row.get "conductivity")
    organic_carbon := parseFloatValue parseFloat numberToString (row.get "organic_carbon")
    trihalomethanes := parseFloatValue parseFloat numberToString (row.get "trihalomethanes")
    turbidity := parseFloatValue parseFloat numberToString (row.get "turbidity") }

/-! ## A model of the builtin `JSON.parse`

`JSON.parse` is an ECMAScript builtin: it yields the value of a well-formed
JSON text and throws a `SyntaxError` on any other text. As for `parseFloat`,
numbers keep their exact decimal value, and the general theorems hold for
every parser. (An escape `\u` naming a surrogate code unit is outside the
model.) -/

/-- JSON white space: space, tab, line feed, carriage return. -/
def isJSONWhitespace (c : Char) : Bool :=
  c.toNat = 0x20 || c.toNat = 0x09 || c.toNat = 0x0A || c.toNat = 0x0D

/-- The text without its leading JSON white space. -/
def skipJSONWhitespace (cs : List Char) : List Char := cs.dropWhile isJSONWhitespace

/-- The value of a hexadecimal digit. -/
def hexValue (c : Char) : Option ℕ :=
  let n := c.toNat
  if 48 ≤ n && n ≤ 57 then some (n - 48)
  else if 65 ≤ n && n ≤ 70 then some (n - 55)
  else if 97 ≤ n && n ≤ 102 then some (n - 87)
  else none

/-- The character a one-letter escape denotes. -/
def unescapeJSON (c : Char) : Option Char :=
  if c = dquote then some dquote
  else if c = backslash then some backslash
  else if c = '/' then some '/'
  else if c = 'b' then some (Char.ofNat 8)
  else if c = 'f' then some (Char.ofNat 12)
  else if c = 'n' then some (Char.ofNat 10)
  else if c = 'r' then some (Char.ofNat 13)
  else if c = 't' then some (Char.ofNat 9)
  else none

/-- The characters of a JSON string, read after its opening quote, and the
text after its closing quote. The first argument bounds the number of steps. -/
def parseJSONChars : ℕ → List Char → Option (List Char × List Char)
  | 0, _ => none
  | _ + 1, [] => none
  | fuel + 1, c :: cs =>
    if c = dquote then some ([], cs)
    else if c = backslash then
      match cs with
      | 'u' :: h1 :: h2 :: h3 :: h4 :: rest =>
        match hexValue h1, hexValue h2, hexValue h3, hexValue h4 with
        | some a, some b, some c, some d =>
          (parseJSONChars fuel rest).map
            (fun r => (Char.ofNat (4096 * a + 256 * b + 16 * c + d) :: r.1, r.2))
        | _, _, _, _ => none
      | e :: rest =>
        match unescapeJSON e with
        | some ch => (parseJSONChars fuel rest).map (fun r => (ch :: r.1, r.2))
        | none => none
      | [] => none
    else if c.toNat < 32 then none
    else (parseJSONChars fuel cs).map (fun r => (c :: r.1, r.2))

/-- A JSON number at the head of the text: an optional minus sign, an integer
part without superfluous leading zero, an optional fraction and an optional
exponent, each with at least one digit. -/
def parseJSONNumber (cs : List Char) : Option (StrDecimal × List Char) :=
  let signed : Bool × List Char :=
    match cs with
    | '-' :: r => (true, r)
    | r => (false, r)
  let intDs : List Char :=
    match signed.2 with
    | '0' :: _ => ['0']
    | r => r.takeWhile isDecimalDigit
  if intDs.isEmpty then none
  else
    let afterInt := signed.2.drop intDs.length
    let frac : Option (List Char × List Char) :=
      match afterInt with
      | '.' :: r =>
        if (r.takeWhile isDecimalDigit).isEmpty then none
        else some (r.takeWhile isDecimalDigit, r.dropWhile isDecimalDigit)
      | r => some ([], r)
    match frac with
    | none => none
    | some (fracDs, afterFrac) =>
      let mantissa := digitsToNat (intDs ++ fracDs)
      match afterFrac with
      | e :: r =>
        if e = 'e' || e = 'E' then
          let expSigned : Bool × List Char :=
            match r with
            | '+' :: r2 => (false, r2)
            | '-' :: r2 => (true, r2)
            | r2 => (false, r2)
          let expDs := expSigned.2.takeWhile isDecimalDigit
          if expDs.isEmpty then none
          else
            let exp10 : ℤ := if expSigned.1 then -(digitsToNat expDs : ℤ) else (digitsToNat expDs : ℤ)
            some (.decimal signed.1 mantissa (exp10 - (fracDs.length : ℤ)),
              expSigned.2.dropWhile isDecimalDigit)
        else some (.decimal signed.1 mantissa (-(fracDs.length : ℤ)), afterFrac)
      | [] => some (.decimal signed.1 mantissa (-(fracDs.length : ℤ)), [])

/-- The elements of an array after the first check for `]`: values separated by
commas, up to the closing bracket. -/
def parseJSONElements (parseValue : List Char → Option (JSValue × List Char)) :
    ℕ → List Char → Option (List JSValue × List Char)
  | 0, _ => none
  | fuel + 1, cs =>
    match parseValue cs with
    | none => none
    | some (v, rest) =>
      match skipJSONWhitespace rest with
      | ',' :: rest2 => (parseJSONElements parseValue fuel rest2).map (fun r => (v :: r.1, r.2))
      | ']' :: rest2 => some ([v], rest2)
      | _ => none

/-- The members of an object after the first check for a closing brace: pairs
of a string and a value separated by commas, up to the closing brace. -/
def parseJSONMembers (parseValue : List Char → Option (JSValue × List Char)) :
    ℕ → List Char → Option (List (String × JSValue) × List Char)
  | 0, _ => none
  | fuel + 1, cs =>
    match skipJSONWhitespace cs with
    | q :: afterQuote =>
      if q = dquote then
        match parseJSONChars (afterQuote.length + 1) afterQuote with
        | none => none
        | some (key, afterKey) =>
          match skipJSONWhitespace afterKey with
          | ':' :: afterColon =>
            match parseValue afterColon with
            | none => none
            | some (v, rest) =>
              match skipJSONWhitespace rest with
              | ',' :: rest2 =>
                (parseJSONMembers parseValue fuel rest2).map
                  (fun r => ((String.mk key, v) :: r.1, r.2))
              | '}' :: rest2 => some ([(String.mk key, v)], rest2)
              | _ => none
          | _ => none
      else none
    | [] => none

/-- A JSON value at the head of the text, after white space, and the text
that follows it. The first argument bounds the nesting depth. -/
def parseJSONValue : ℕ → List Char → Option (JSValue × List Char)
  | 0, _ => none
  | fuel + 1, cs =>
    match skipJSONWhitespace cs with
    | [] => none
    | c :: rest =>
      if c = '{' then
        match skipJSONWhitespace rest with
        | '}' :: rest2 => some (.object [], rest2)
        | _ =>
          (parseJSONMembers (parseJSONValue fuel) (rest.length + 1) rest).map
            (fun r => (.object (r.1.foldl (fun o kv => Record.define o kv.1 kv.2) []), r.2))
      else if c = '[' then
        match skipJSONWhitespace rest with
        | ']' :: rest2 => some (.array [], rest2)
        | _ =>
          (parseJSONElements (parseJSONValue fuel) (rest.length + 1) rest).map
            (fun r => (.array r.1, r.2))
      else if c = dquote then
        (parseJSONChars (rest.length + 1) rest).map (fun r => (.string (String.mk r.1), r.2))
      else if "true".toList.isPrefixOf (c :: rest) then some (.bool true, rest.drop 3)
      else if "false".toList.isPrefixOf (c :: rest) then some (.bool false, rest.drop 4)
      else if "null".toList.isPrefixOf (c :: rest) then some (.null, rest.drop 3)
      else (parseJSONNumber (c :: rest)).map (fun r => (.number r.1.toJSNum, r.2))

/-- The builtin `JSON.parse` on a string: the value, or `Except.error` for the
`SyntaxError` it throws. The nesting depth of a text is below its length. -/
def jsonParse (content : String) : Except String JSValue :=
  match parseJSONValue (content.length + 1) content.toList with
  | some (v, rest) =>
    if (skipJSONWhitespace rest).isEmpty then .ok v else .error "SyntaxError"
  | none => .error "SyntaxError"

/-! ## The export and the ingestion, as the specification words them -/

/-- A text with a backslash put before every double quote, wrapped in double
quotes. -/
def quotedText (text : String) : String :=
  String.mk ([dquote] ++
    (text.toList.map (fun c => if c = dquote then [backslash, dquote] else [c])).flatten ++ [dquote])

/-- The line of one record under the given keys: its values, each rendered as
text and quoted, joined by commas. -/
def csvLineOf (numberToString : JSNum → String) (keys : List String) (row : Record) : String :=
  jsJoin "," (keys.map (fun key => quotedText ((row.get key).toText numberToString)))

/-- The first line of a content: `lines[0]`. -/
def csvFirstLine (content : String) : String := (jsSplit lineFeed content).headD ""

/-- The lines after the first: `lines[1]`, `lines[2]`, ... -/
def csvLaterLines (content : String) : List String := (jsSplit lineFeed content).tail

/-- A blank line: nothing but white space. -/
def isBlankLine (line : String) : Bool := decide (jsTrim line = "")

/-- The header names of a line: split on commas, each name trimmed. -/
def headerNames (line : String) : List String := (jsSplit ',' line).map jsTrim

/-- The trimmed `i`-th comma-separated value of a line, the empty string when
the line has no `i`-th value. -/
def trimmedValue (line : String) (i : ℕ) : String :=
  (((jsSplit ',' line)[i]?).map jsTrim).getD ""

/-- Ingestion as the specification words it: the first non-blank line is the
header, the non-blank lines after it give the records. -/
def ingestFromFirstNonBlank (content : String) : List Record :=
  match (jsSplit lineFeed content).dropWhile isBlankLine with
  | [] => []
  | header :: later =>
    (later.filter (fun line => !isBlankLine line)).map (buildEntry (jsSplit ',' header))

/-- The order in which an object enumerates two of its keys: distinct keys,
array indices first and ascending, the other keys after them. -/
def keyBefore (a b : String) : Bool :=
  decide (a ≠ b) &&
    (match arrayIndex a, arrayIndex b with
     | some m, some n => decide (m < n)
     | none, some _ => false
     | _, none => true)

/-- A text wrapped in double quotes. -/
def wrapQuotes (text : String) : String := String.mk ([dquote] ++ text.toList ++ [dquote])

/-- A record of strings with every value wrapped in double quotes. -/
def quoteValues (r : Record) : Record :=
  r.map (fun kv =>
    match kv.2 with
    | .string text => (kv.1, .string (wrapQuotes text))
    | v => (kv.1, v))

/-- The properties the `forEach` loop sets, from position `index` on, in
header order. -/
def entryPairs (values : List String) : ℕ → List String → Record
  | _, [] => []
  | index, header :: headers =>
    (jsTrim header, .string (cellAt values index)) :: entryPairs values (index + 1) headers

/-! ## Concrete contents and datasets -/

/-- A CSV content that begins with a blank line. -/
def csvLeadingBlank : String := "\nph\n7.5"

/-- A CSV content whose header holds the name `__proto__`. -/
def csvProtoHeader : String := "__proto__,a\n1,2"

/-- A CSV content with a spaced header, a line with a value too many, a blank
line and a line with a value too few. -/
def csvRagged : String := "ph, hardness\n7.5,200,extra\n\n 6.8 "

/-- A dataset of one record with one string value. -/
def datasetPh : List Record := [[("ph", .string "7.5")]]

/-- A dataset whose key begins with a space. -/
def datasetSpacedKey : List Record := [[(" a", .string "1")]]

/-- A dataset whose value holds a line feed. -/
def datasetTwoLineValue : List Record := [[("a", .string "x\ny")]]

/-- A uniform dataset of two records. -/
def datasetTwoRows : List Record :=
  [[("ph", .string "7.5"), ("hardness", .string "200")],
   [("ph", .string "6.8"), ("hardness", .string "180")]]

/-- A content that is not well-formed JSON: the key is not quoted. -/
def jsonMalformed : String := "\x7bph: 7\x7d"

/-- A well-formed JSON content denoting a single object. -/
def jsonSingleObject : String := "\x7b\"ph\": \"7.5\"\x7d"

/-- A well-formed JSON content denoting a number. -/
def jsonNumber : String := "5"

/-- A well-formed JSON content denoting a string. -/
def jsonText : String := "\"abc\""

/-- A well-formed JSON content denoting an array of arrays. -/
def jsonArrayOfArrays : String := "[[\"a\",\"b\"]]"

/-- A row that holds numeric text for all nine fields: ph is in its optimal
band, no other field is. -/
def rowOnlyPhInBand : Record :=
  [("ph", .string "7.5"), ("hardness", .string "0"), ("solids", .string "1000"),
   ("chloramines", .string "10"), ("sulfate", .string "1000"), ("conductivity", .string "0"),
   ("organic_carbon", .string "100"), ("trihalomethanes", .string "1000"),
   ("turbidity", .string "100")]

/-! ## The scorer -/

theorem ge_le_eq_inClosedBand (x : JSNum) (lo hi : ℚ) :
    (x.ge (.fin lo) && x.le (.fin hi)) = inClosedBand lo hi x := by
  cases x <;> simp [JSNum.ge, JSNum.le, inClosedBand]

theorem lt_eq_belowLimit (x : JSNum) (limit : ℚ) :
    x.lt (.fin limit) = belowLimit limit x := by
  cases x <;> simp [JSNum.lt, belowLimit]

theorem ite_add_points (c : Bool) (score points : ℚ) :
    (if c = true then score + points else score) = score + (if c = true then points else 0) := by
  split_ifs <;> simp

theorem computeScore_eq_specScore (v : Values) : computeScore v = specScore v := by
  have hph : (if inClosedBand 6.5 8.5 v.ph = true then (0 : ℚ) + 30
      else if inClosedBand 6.0 9.0 v.ph = true then 0 + 15 else 0) = phContribution v.ph := by
    unfold phContribution; split_ifs <;> simp
  simp only [computeScore, specScore, optimalBand, bandContribution, ge_le_eq_inClosedBand,
    lt_eq_belowLimit, ite_add_points _ _ 10, hph]

theorem phContribution_bounds (ph : JSNum) : 0 ≤ phContribution ph ∧ phContribution ph ≤ 30 := by
  unfold phContribution; split_ifs <;> norm_num

theorem bandContribution_bounds (b : Bool) : 0 ≤ bandContribution b ∧ bandContribution b ≤ 10 := by
  unfold bandContribution; split_ifs <;> norm_num

/-- C1 (as amended): for every sample of nine numbers the score the form-mode
scorer computes satisfies `0 ≤ score ≤ 110`. -/
theorem computeScore_bounds (v : Values) : 0 ≤ computeScore v ∧ computeScore v ≤ 110 := by
  rw [computeScore_eq_specScore]
  unfold specScore
  have h0 := phContribution_bounds v.ph
  have h1 := bandContribution_bounds (optimalBand .hardness v.hardness)
  have h2 := bandContribution_bounds (optimalBand .solids v.solids)
  have h3 := bandContribution_bounds (optimalBand .chloramines v.chloramines)
  have h4 := bandContribution_bounds (optimalBand .sulfate v.sulfate)
  have h5 := bandContribution_bounds (optimalBand .conductivity v.conductivity)
  have h6 := bandContribution_bounds (optimalBand .organic_carbon v.organic_carbon)
  have h7 := bandContribution_bounds (optimalBand .trihalomethanes v.trihalomethanes)
  have h8 := bandContribution_bounds (optimalBand .turbidity v.turbidity)
  constructor <;> linarith [h0.1, h0.2, h1.1, h1.2, h2.1, h2.2, h3.1, h3.2, h4.1, h4.2,
    h5.1, h5.2, h6.1, h6.2, h7.1, h7.2, h8.1, h8.2]

/-- C1 (counterexample): a sample inside every optimal band scores 110, so
the score is not at most 100. -/
theorem computeScore_exceeds_100 :
    computeScore sampleAllOptimal = 110 ∧ ¬ (0 ≤ computeScore sampleAllOptimal ∧
      computeScore sampleAllOptimal ≤ 100) := by
  have h : computeScore sampleAllOptimal = 110 := by
    norm_num [computeScore, sampleAllOptimal, JSNum.lt, JSNum.le, JSNum.ge]
  rw [h]; norm_num

/-- C2: for every sample of nine numbers the score equals the sum of the
per-field contributions of the scoring table (ph 30 in `[6.5,8.5]`, otherwise
15 in `[6.0,9.0]`, otherwise 0; 10 for each other field exactly when it is in
its band). -/
theorem computeScore_eq_table_sum (v : Values) :
    computeScore v =
      (if inClosedBand 6.5 8.5 v.ph then 30 else if inClosedBand 6.0 9.0 v.ph then 15 else 0)
      + (if inClosedBand 150 300 v.hardness then 10 else 0)
      + (if belowLimit 600 v.solids then 10 else 0)
      + (if belowLimit 4 v.chloramines then 10 else 0)
      + (if belowLimit 250 v.sulfate then 10 else 0)
      + (if inClosedBand 200 800 v.conductivity then 10 else 0)
      + (if belowLimit 10 v.organic_carbon then 10 else 0)
      + (if belowLimit 80 v.trihalomethanes then 10 else 0)
      + (if belowLimit 5 v.turbidity then 10 else 0) := by
  rw [computeScore_eq_specScore]
  rfl

/-- C3: the category is Good exactly when `score ≥ 80`, Moderate exactly when
`50 ≤ score < 80` and Poor exactly when `score < 50`; 79.9 is Moderate, 80 is
Good, 49.9 is Poor and 50 is Moderate. -/
theorem classify_thresholds (score : ℚ) :
    (classify score = .Good ↔ score ≥ 80)
    ∧ (classify score = .Moderate ↔ 50 ≤ score ∧ score < 80)
    ∧ (classify score = .Poor ↔ score < 50)
    ∧ classify 79.9 = .Moderate ∧ classify 80 = .Good
    ∧ classify 49.9 = .Poor ∧ classify 50 = .Moderate := by
  refine ⟨?_, ?_, ?_, ?_, ?_, ?_, ?_⟩
  · unfold classify; split_ifs <;> simp_all
  · unfold classify; split_ifs with h1 h2 <;> simp_all
  · unfold classify; split_ifs with h1 h2 <;> simp_all
    linarith
  all_goals norm_num [classify]

/-! ## The two worked examples -/

theorem parseFloat_of_decimal (s : String) (neg : Bool) (mantissa : ℕ) (exp10 : ℤ)
    (h : parseDecimal s = some (.decimal neg mantissa exp10)) :
    parseFloat s = .fin ((if neg then -1 else 1) * (mantissa : ℚ) * (10 : ℚ) ^ exp10) := by
  simp [parseFloat, h, StrDecimal.toJSNum]

theorem parseFloat_of_none (s : String) (h : parseDecimal s = none) : parseFloat s = .nan := by
  simp [parseFloat, h]

theorem parsedValues_formA : parsedValues parseFloat formA = sampleA := by
  have h1 : parseFloat "7.5" = .fin 7.5 := by
    rw [parseFloat_of_decimal "7.5" false 75 (-1) (by decide)]; norm_num
  have h2 : parseFloat "200" = .fin 200 := by
    rw [parseFloat_of_decimal "200" false 200 0 (by decide)]; norm_num
  have h3 : parseFloat "500" = .fin 500 := by
    rw [parseFloat_of_decimal "500" false 500 0 (by decide)]; norm_num
  have h4 : parseFloat "2.5" = .fin 2.5 := by
    rw [parseFloat_of_decimal "2.5" false 25 (-1) (by decide)]; norm_num
  have h5 : parseFloat "250" = .fin 250 := by
    rw [parseFloat_of_decimal "250" false 250 0 (by decide)]; norm_num
  have h6 : parseFloat "400" = .fin 400 := by
    rw [parseFloat_of_decimal "400" false 400 0 (by decide)]; norm_num
  have h7 : parseFloat "10" = .fin 10 := by
    rw [parseFloat_of_decimal "10" false 10 0 (by decide)]; norm_num
  have h8 : parseFloat "50" = .fin 50 := by
    rw [parseFloat_of_decimal "50" false 50 0 (by decide)]; norm_num
  have h9 : parseFloat "3.5" = .fin 3.5 := by
    rw [parseFloat_of_decimal "3.5" false 35 (-1) (by decide)]; norm_num
  simp only [parsedValues, formA, sampleA, h1, h2, h3, h4, h5, h6, h7, h8, h9]

theorem validateForm_formA : validateForm parseFloat formA = .ok sampleA := by
  have he : emptyFields formA = [] := by decide
  simp only [validateForm, he, parsedValues_formA]
  norm_num [sampleA, JSNum.lt, JSNum.gt]

theorem computeScore_sampleA : computeScore sampleA = 90 := by
  norm_num [computeScore, sampleA, JSNum.lt, JSNum.le, JSNum.ge]

/-- C4 (as amended): for the sample ph 7.5, hardness 200, solids 500,
chloramines 2.5, sulfate 250, conductivity 400, organic_carbon 10,
trihalomethanes 50, turbidity 3.5, validation succeeds and the scorer gives
score 90 and category Good. -/
theorem example_sample_scores_90 :
    validateForm parseFloat formA = .ok sampleA
    ∧ computeScore sampleA = 90
    ∧ classify (computeScore sampleA) = .Good
    ∧ formPrediction parseFloat formA = .ok .Good := by
  have hc : classify (computeScore sampleA) = .Good := by
    rw [computeScore_sampleA]; norm_num [classify]
  refine ⟨validateForm_formA, computeScore_sampleA, hc, ?_⟩
  simp only [formPrediction, validateForm_formA, hc]

/-- C4 (counterexample): the score of that sample is not 100, because
sulfate 250 and organic_carbon 10 are not below their limits. -/
theorem example_sample_not_100 :
    ¬ (computeScore sampleA = 100)
    ∧ belowLimit 250 sampleA.sulfate = false
    ∧ belowLimit 10 sampleA.organic_carbon = false := by
  refine ⟨?_, ?_, ?_⟩
  · rw [computeScore_sampleA]; norm_num
  · simp [sampleA, belowLimit]
  · simp [sampleA, belowLimit]

theorem parsedValues_formB : parsedValues parseFloat formB = sampleB := by
  have h1 : parseFloat "9.5" = .fin 9.5 := by
    rw [parseFloat_of_decimal "9.5" false 95 (-1) (by decide)]; norm_num
  have h := parsedValues_formA
  simp only [parsedValues, formA, sampleA, Values.mk.injEq] at h
  obtain ⟨-, h2, h3, h4, h5, h6, h7, h8, h9⟩ := h
  simp only [parsedValues, formB, formA, sampleB, sampleA, h1, h2, h3, h4, h5, h6, h7, h8, h9]

theorem validateForm_formB : validateForm parseFloat formB = .ok sampleB := by
  have he : emptyFields formB = [] := by decide
  simp only [validateForm, he, parsedValues_formB]
  norm_num [sampleB, sampleA, JSNum.lt, JSNum.gt]

theorem computeScore_sampleB : computeScore sampleB = 60 := by
  norm_num [computeScore, sampleB, sampleA, JSNum.lt, JSNum.le, JSNum.ge]

/-- C5 (as amended): for the sample ph 9.5, hardness 200, solids 500,
chloramines 2.5, sulfate 250, conductivity 400, organic_carbon 10,
trihalomethanes 50, turbidity 3.5, ph contributes 0 points, the score is 60
and the category is Moderate. -/
theorem example_ph_9_5_scores_60 :
    validateForm parseFloat formB = .ok sampleB
    ∧ phContribution sampleB.ph = 0
    ∧ computeScore sampleB = 60
    ∧ classify (computeScore sampleB) = .Moderate
    ∧ formPrediction parseFloat formB = .ok .Moderate := by
  have hc : classify (computeScore sampleB) = .Moderate := by
    rw [computeScore_sampleB]; norm_num [classify]
  refine ⟨validateForm_formB, ?_, computeScore_sampleB, hc, ?_⟩
  · norm_num [phContribution, sampleB, sampleA, inClosedBand]
  · simp only [formPrediction, validateForm_formB, hc]

/-- C5 (counterexample): the score of the sample with ph 9.5 is not 70. -/
theorem example_ph_9_5_not_70 : ¬ (computeScore sampleB = 70) := by
  rw [computeScore_sampleB]; norm_num

/-! ## Monotonicity in band membership -/

theorem optimal_ph_is_acceptable (x : JSNum) (h : inClosedBand 6.5 8.5 x = true) :
    inClosedBand 6.0 9.0 x = true := by
  cases x <;> simp_all [inClosedBand]
  constructor <;> linarith [h.1, h.2]

theorem specScore_set_le (s : Values) (f : Field) (inside outside : JSNum)
    (hin : optimalBand f inside = true) (hout : optimalBand f outside = false) :
    specScore (s.set f outside) ≤ specScore (s.set f inside) := by
  cases f
  case ph =>
    have h1 : phContribution inside = 30 := by
      simp only [optimalBand] at hin; simp [phContribution, hin]
    have h2 := (phContribution_bounds outside).2
    simp only [specScore, Values.set, h1]
    linarith
  all_goals
    simp only [specScore, Values.set, hin, hout, bandContribution]
    norm_num

/-- C6: the score is monotonic non-decreasing in band membership. For three
samples that agree on all fields except ph, with the first ph outside
`[6.0,9.0]`, the second in `[6.0,9.0]` but outside `[6.5,8.5]` and the third in
`[6.5,8.5]`, the scores are in non-decreasing order; and for every field, of
two samples that differ only in that field, the one whose value is in the
field's optimal band scores at least as much as the one whose value is
outside it. -/
theorem computeScore_monotone (s : Values) (a b c : JSNum) (f : Field) (inside outside : JSNum)
    (ha : inClosedBand 6.0 9.0 a = false)
    (hb : inClosedBand 6.0 9.0 b = true ∧ inClosedBand 6.5 8.5 b = false)
    (hc : inClosedBand 6.5 8.5 c = true)
    (hin : optimalBand f inside = true) (hout : optimalBand f outside = false) :
    (computeScore (s.set .ph a) ≤ computeScore (s.set .ph b)
      ∧ computeScore (s.set .ph b) ≤ computeScore (s.set .ph c))
    ∧ computeScore (s.set f outside) ≤ computeScore (s.set f inside) := by
  simp only [computeScore_eq_specScore]
  refine ⟨⟨?_, ?_⟩, specScore_set_le s f inside outside hin hout⟩
  · have h1 : phContribution a = 0 := by
      have : inClosedBand 6.5 8.5 a = false := by
        by_contra hne
        rw [Bool.not_eq_false] at hne
        rw [optimal_ph_is_acceptable a hne] at ha
        exact Bool.noConfusion ha
      simp [phContribution, ha, this]
    have h2 : phContribution b = 15 := by simp [phContribution, hb.1, hb.2]
    simp only [specScore, Values.set, h1, h2]
    linarith
  · have h1 : phContribution c = 30 := by simp [phContribution, hc]
    have h2 : phContribution b = 15 := by simp [phContribution, hb.1, hb.2]
    simp only [specScore, Values.set, h1, h2]
    linarith

/-- C6 (witness): ph 5, 6.2 and 7 on the example sample, and hardness 200
against hardness 400. -/
theorem computeScore_monotone_witness :
    (inClosedBand 6.0 9.0 (.fin 5) = false
      ∧ (inClosedBand 6.0 9.0 (.fin 6.2) = true ∧ inClosedBand 6.5 8.5 (.fin 6.2) = false)
      ∧ inClosedBand 6.5 8.5 (.fin 7) = true
      ∧ optimalBand .hardness (.fin 200) = true ∧ optimalBand .hardness (.fin 400) = false)
    ∧ (computeScore (sampleA.set .ph (.fin 5)) ≤ computeScore (sampleA.set .ph (.fin 6.2))
      ∧ computeScore (sampleA.set .ph (.fin 6.2)) ≤ computeScore (sampleA.set .ph (.fin 7)))
    ∧ computeScore (sampleA.set .hardness (.fin 400))
        ≤ computeScore (sampleA.set .hardness (.fin 200)) := by
  have ha : inClosedBand 6.0 9.0 (.fin 5) = false := by norm_num [inClosedBand]
  have hb : inClosedBand 6.0 9.0 (.fin 6.2) = true ∧ inClosedBand 6.5 8.5 (.fin 6.2) = false := by
    constructor <;> norm_num [inClosedBand]
  have hc : inClosedBand 6.5 8.5 (.fin 7) = true := by norm_num [inClosedBand]
  have hin : optimalBand .hardness (.fin 200) = true := by norm_num [optimalBand, inClosedBand]
  have hout : optimalBand .hardness (.fin 400) = false := by norm_num [optimalBand, inClosedBand]
  exact ⟨⟨ha, hb, hc, hin, hout⟩,
    computeScore_monotone sampleA (.fin 5) (.fin 6.2) (.fin 7) .hardness (.fin 200) (.fin 400)
      ha hb hc hin hout⟩


/-! ## The validator -/

theorem mem_requiredFields (f : Field) : f ∈ requiredFields := by
  cases f <;> simp [requiredFields]

theorem isEmptyField_iff (fd : FormData) (f : Field) :
    isEmptyField fd f = true ↔ fd.get f = "" := by
  simp [isEmptyField, jsNot, strictNeZero]

theorem mem_emptyFields (fd : FormData) (f : Field) : f ∈ emptyFields fd ↔ fd.get f = "" := by
  simp [emptyFields, List.mem_filter, mem_requiredFields, isEmptyField_iff]

theorem emptyFields_eq_nil_iff (fd : FormData) :
    emptyFields fd = [] ↔ ∀ f, fd.get f ≠ "" := by
  constructor
  · intro h f hf
    have := (mem_emptyFields fd f).2 hf
    rw [h] at this
    exact List.not_mem_nil f this
  · intro h
    apply List.eq_nil_iff_forall_not_mem.2
    intro f hf
    exact h f ((mem_emptyFields fd f).1 hf)

theorem emptyFields_nodup (fd : FormData) : (emptyFields fd).Nodup := by
  apply List.Nodup.filter
  decide

theorem validateForm_of_empty (parse : String → JSNum) (fd : FormData)
    (h : emptyFields fd ≠ []) :
    validateForm parse fd = .error (.missing (emptyFields fd)) := by
  have hlen : (emptyFields fd).length > 0 := List.length_pos.2 h
  simp only [validateForm, hlen, if_true]

theorem validateForm_of_filled (parse : String → JSNum) (fd : FormData)
    (h : emptyFields fd = []) :
    validateForm parse fd =
      if outOfRange 0 14 (parse fd.ph) then .error .phRange
      else if outOfRange 0 1000 (parse fd.hardness) then .error .hardnessRange
      else .ok (parsedValues parse fd) := by
  simp only [validateForm, h, outOfRange, parsedValues]
  simp

theorem outOfRange_fin (lo hi q : ℚ) :
    outOfRange lo hi (.fin q) = true ↔ q < lo ∨ hi < q := by
  simp [outOfRange, JSNum.lt, JSNum.gt]

theorem outOfRange_nan (lo hi : ℚ) : outOfRange lo hi .nan = false := by
  simp [outOfRange, JSNum.lt, JSNum.gt]

theorem reportedViolations_eq (parse : String → JSNum) (fd : FormData) :
    reportedViolations parse fd =
      if emptyFields fd ≠ [] then emptyFields fd
      else if outOfRange 0 14 (parse fd.ph) then [.ph]
      else if outOfRange 0 1000 (parse fd.hardness) then [.hardness]
      else [] := by
  by_cases h : emptyFields fd = []
  · simp only [reportedViolations, validateForm_of_filled parse fd h, h, ne_eq, not_true_eq_false,
      if_false]
    split_ifs <;> rfl
  · simp only [reportedViolations, validateForm_of_empty parse fd h, ne_eq, h, not_false_eq_true,
      if_true, FormError.reportedFields]

theorem contractViolations_eq_nil_iff (parse : String → JSNum) (fd : FormData) :
    contractViolations parse fd = [] ↔
      emptyFields fd = [] ∧ outOfRange 0 14 (parse fd.ph) = false
        ∧ outOfRange 0 1000 (parse fd.hardness) = false := by
  rw [emptyFields_eq_nil_iff]
  constructor
  · intro h
    have hall : ∀ f, violatesContract parse fd f = false := by
      intro f
      have := List.filter_eq_nil_iff.1 h f (mem_requiredFields f)
      simpa using this
    refine ⟨?_, ?_, ?_⟩
    · intro f hf
      have := hall f
      simp [violatesContract, hf] at this
    · have := hall .ph
      simp only [violatesContract, Bool.or_eq_false_iff, Bool.and_eq_false_imp] at this
      simpa using this.1.2
    · have := hall .hardness
      simp only [violatesContract, Bool.or_eq_false_iff, Bool.and_eq_false_imp] at this
      simpa using this.2
  · rintro ⟨h1, h2, h3⟩
    apply List.filter_eq_nil_iff.2
    intro f _
    simp [violatesContract, h1 f, h2, h3]

/-- C7 (as amended): validate reports the violations of the first failing
check only. If some field is empty it reports exactly the empty fields, all of
them, and no range violation; otherwise, if ph is below 0 or above 14, it
reports ph alone; otherwise, if hardness is below 0 or above 1000, it reports
hardness alone; otherwise it reports nothing. What it reports is always part
of the fields that violate the contract, and it reports nothing exactly when
no field violates the contract. -/
theorem reportedViolations_first_check (parse : String → JSNum) (fd : FormData) :
    reportedViolations parse fd =
      (if emptyFields fd ≠ [] then emptyFields fd
       else if outOfRange 0 14 (parse fd.ph) then [.ph]
       else if outOfRange 0 1000 (parse fd.hardness) then [.hardness]
       else [])
    ∧ (∀ f, f ∈ emptyFields fd ↔ fd.get f = "")
    ∧ (reportedViolations parse fd).Sublist (contractViolations parse fd)
    ∧ (reportedViolations parse fd = [] ↔ contractViolations parse fd = []) := by
  refine ⟨reportedViolations_eq parse fd, mem_emptyFields fd, ?_, ?_⟩
  · rw [reportedViolations_eq]
    split_ifs with h1 h2 h3
    · apply List.monotone_filter_right
      intro f hf
      simp [violatesContract, (isEmptyField_iff fd f).1 hf]
    · rw [List.singleton_sublist]
      simp [contractViolations, List.mem_filter, mem_requiredFields, violatesContract, h2]
    · rw [List.singleton_sublist]
      simp [contractViolations, List.mem_filter, mem_requiredFields, violatesContract, h3]
    · exact List.nil_sublist _
  · rw [reportedViolations_eq, contractViolations_eq_nil_iff]
    split_ifs with h1 h2 h3 <;> simp_all

theorem parseFloat_15 : parseFloat "15" = .fin 15 := by
  rw [parseFloat_of_decimal "15" false 15 0 (by decide)]; norm_num

theorem parseFloat_2000 : parseFloat "2000" = .fin 2000 := by
  rw [parseFloat_of_decimal "2000" false 2000 0 (by decide)]; norm_num

theorem parseFloat_200 : parseFloat "200" = .fin 200 := by
  rw [parseFloat_of_decimal "200" false 200 0 (by decide)]; norm_num

/-- C7 (counterexample): with ph 15 and hardness 2000 both violate the
contract and only ph is reported; with solids empty and ph 15 both violate the
contract and only solids is reported. -/
theorem reportedViolations_not_all :
    reportedViolations parseFloat formBothOutOfRange = [.ph]
    ∧ contractViolations parseFloat formBothOutOfRange = [.ph, .hardness]
    ∧ reportedViolations parseFloat formEmptyAndPh = [.solids]
    ∧ contractViolations parseFloat formEmptyAndPh = [.ph, .solids] := by
  have e1 : emptyFields formBothOutOfRange = [] := by decide
  have e2 : emptyFields formEmptyAndPh = [.solids] := by decide
  have o1 : outOfRange 0 14 (.fin 15) = true := by norm_num [outOfRange_fin]
  have o2 : outOfRange 0 1000 (.fin 2000) = true := by norm_num [outOfRange_fin]
  have o3 : outOfRange 0 1000 (.fin 200) = false := by
    rw [Bool.eq_false_iff, ne_eq, outOfRange_fin]; norm_num
  refine ⟨?_, ?_, ?_, ?_⟩
  · have hph : formBothOutOfRange.ph = "15" := rfl
    rw [reportedViolations_eq, e1, hph, parseFloat_15, o1]
    simp
  · simp [contractViolations, requiredFields, List.filter, violatesContract, FormData.get,
      formBothOutOfRange, formA, parseFloat_15, parseFloat_2000, o1, o2]
  · rw [reportedViolations_eq]
    simp [e2]
  · simp [contractViolations, requiredFields, List.filter, violatesContract, FormData.get,
      formEmptyAndPh, formA, parseFloat_15, parseFloat_200, o1, o3]

/-- C8: when all nine form fields are empty, validate fails and reports all
nine fields as missing; and for every form input with at least one empty
field, validate fails and the reported missing fields are exactly the empty
ones. -/
theorem validateForm_reports_every_empty_field (parse : String → JSNum) (fd : FormData)
    (h : ∃ f, fd.get f = "") :
    (validateForm parse formAllEmpty = .error (.missing requiredFields)
      ∧ (FormError.missing requiredFields).message =
          "Please fill in all required fields: ph, hardness, solids, chloramines, sulfate, conductivity, organic_carbon, trihalomethanes, turbidity")
    ∧ (∃ fields, validateForm parse fd = .error (.missing fields)
        ∧ (∀ f, f ∈ fields ↔ fd.get f = "") ∧ fields.Nodup) := by
  refine ⟨⟨?_, by decide⟩, emptyFields fd, ?_, mem_emptyFields fd, emptyFields_nodup fd⟩
  · have he : emptyFields formAllEmpty = requiredFields := by decide
    rw [validateForm_of_empty parse formAllEmpty (by rw [he]; decide), he]
  · apply validateForm_of_empty
    obtain ⟨f, hf⟩ := h
    intro hnil
    exact (emptyFields_eq_nil_iff fd).1 hnil f hf

/-- C8 (witness): the form with solids empty and ph 15. -/
theorem validateForm_reports_every_empty_field_witness :
    (∃ f, formEmptyAndPh.get f = "")
    ∧ (validateForm parseFloat formAllEmpty = .error (.missing requiredFields)
      ∧ (FormError.missing requiredFields).message =
          "Please fill in all required fields: ph, hardness, solids, chloramines, sulfate, conductivity, organic_carbon, trihalomethanes, turbidity")
    ∧ (∃ fields, validateForm parseFloat formEmptyAndPh = .error (.missing fields)
        ∧ (∀ f, f ∈ fields ↔ formEmptyAndPh.get f = "") ∧ fields.Nodup) :=
  ⟨⟨.solids, rfl⟩,
    validateForm_reports_every_empty_field parseFloat formEmptyAndPh ⟨.solids, rfl⟩⟩

theorem parsedValues_get (parse : String → JSNum) (fd : FormData) (f : Field) :
    (parsedValues parse fd).get f = parse (fd.get f) := by
  cases f <;> rfl

/-- C9 (as amended): text that parses to NaN is never reported. For every
form input whose nine fields are non-empty and in which the text of some field
parses to NaN, validate either returns the Sample, which holds NaN in that
field, or fails with a range violation of another field (ph or hardness). -/
theorem validateForm_nan_not_reported (parse : String → JSNum) (fd : FormData) (f : Field)
    (hne : ∀ g, fd.get g ≠ "") (hnan : parse (fd.get f) = .nan) :
    (validateForm parse fd = .ok (parsedValues parse fd) ∧ (parsedValues parse fd).get f = .nan)
    ∨ (∃ e, validateForm parse fd = .error e ∧ (e = .phRange ∨ e = .hardnessRange)
        ∧ f ∉ e.reportedFields) := by
  rw [validateForm_of_filled parse fd ((emptyFields_eq_nil_iff fd).2 hne)]
  split_ifs with h1 h2
  · right
    refine ⟨.phRange, rfl, Or.inl rfl, ?_⟩
    intro hf
    have hf2 : f = .ph := by simpa [FormError.reportedFields] using hf
    subst hf2
    have hnan2 : parse fd.ph = .nan := hnan
    rw [hnan2, outOfRange_nan] at h1
    exact Bool.noConfusion h1
  · right
    refine ⟨.hardnessRange, rfl, Or.inr rfl, ?_⟩
    intro hf
    have hf2 : f = .hardness := by simpa [FormError.reportedFields] using hf
    subst hf2
    have hnan2 : parse fd.hardness = .nan := hnan
    rw [hnan2, outOfRange_nan] at h2
    exact Bool.noConfusion h2
  · left
    exact ⟨rfl, by rw [parsedValues_get, hnan]⟩

theorem parseFloat_abc : parseFloat "abc" = .nan :=
  parseFloat_of_none "abc" (by decide)

theorem formPhNotNumeric_filled : ∀ g, formPhNotNumeric.get g ≠ "" := by
  intro g; cases g <;> decide

/-- C9 (witness): the form whose ph holds the text abc. -/
theorem validateForm_nan_not_reported_witness :
    ((∀ g, formPhNotNumeric.get g ≠ "") ∧ parseFloat (formPhNotNumeric.get .ph) = .nan)
    ∧ ((validateForm parseFloat formPhNotNumeric = .ok (parsedValues parseFloat formPhNotNumeric)
          ∧ (parsedValues parseFloat formPhNotNumeric).get .ph = .nan)
      ∨ (∃ e, validateForm parseFloat formPhNotNumeric = .error e
          ∧ (e = .phRange ∨ e = .hardnessRange) ∧ Field.ph ∉ e.reportedFields)) :=
  ⟨⟨formPhNotNumeric_filled, parseFloat_abc⟩,
    validateForm_nan_not_reported parseFloat formPhNotNumeric .ph formPhNotNumeric_filled
      parseFloat_abc⟩

/-- C9 (counterexample): with the non-empty text abc in ph, which parses to
NaN, validate reports nothing and returns a Sample whose ph is NaN. -/
theorem validateForm_accepts_non_numeric :
    formPhNotNumeric.ph = "abc" ∧ parseFloat "abc" = .nan
    ∧ validateForm parseFloat formPhNotNumeric = .ok { sampleA with ph := .nan }
    ∧ reportedViolations parseFloat formPhNotNumeric = [] := by
  have hv : validateForm parseFloat formPhNotNumeric = .ok { sampleA with ph := .nan } := by
    rw [validateForm_of_filled parseFloat formPhNotNumeric
      ((emptyFields_eq_nil_iff _).2 formPhNotNumeric_filled)]
    have hph : formPhNotNumeric.ph = "abc" := rfl
    have hh : formPhNotNumeric.hardness = "200" := rfl
    have o3 : outOfRange 0 1000 (.fin 200) = false := by
      rw [Bool.eq_false_iff, ne_eq, outOfRange_fin]; norm_num
    rw [hph, hh, parseFloat_abc, parseFloat_200, outOfRange_nan, o3]
    have h := parsedValues_formA
    simp only [parsedValues, formA, sampleA, Values.mk.injEq] at h
    obtain ⟨-, h2, h3, h4, h5, h6, h7, h8, h9⟩ := h
    simp [parsedValues, formPhNotNumeric, formA, sampleA, parseFloat_abc, h2, h3, h4, h5, h6, h7,
      h8, h9]
  refine ⟨rfl, parseFloat_abc, hv, ?_⟩
  simp only [reportedViolations, hv]

/-- C10: for every form input whose nine fields are all non-empty and whose
ph and hardness parse to the numbers `p` and `h`, validate fails if `p` is
below 0 or above 14 or `h` is below 0 or above 1000, and otherwise succeeds and
returns the Sample made of the nine parsed numbers; the boundary values ph 0,
ph 14, hardness 0 and hardness 1000 are accepted. -/
theorem validateForm_range_checks (parse : String → JSNum) (fd : FormData) (p h : ℚ)
    (hne : ∀ f, fd.get f ≠ "") (hp : parse fd.ph = .fin p) (hh : parse fd.hardness = .fin h) :
    ((p < 0 ∨ 14 < p ∨ h < 0 ∨ 1000 < h) →
        ∃ e, validateForm parse fd = .error e ∧ (e = .phRange ∨ e = .hardnessRange))
    ∧ ((0 ≤ p ∧ p ≤ 14 ∧ 0 ≤ h ∧ h ≤ 1000) →
        validateForm parse fd = .ok (parsedValues parse fd))
    ∧ ((p = 0 ∨ p = 14) → (h = 0 ∨ h = 1000) →
        validateForm parse fd = .ok (parsedValues parse fd)) := by
  have hv := validateForm_of_filled parse fd ((emptyFields_eq_nil_iff fd).2 hne)
  rw [hp, hh] at hv
  have hin : (0 ≤ p ∧ p ≤ 14 ∧ 0 ≤ h ∧ h ≤ 1000) →
      validateForm parse fd = .ok (parsedValues parse fd) := by
    rintro ⟨h1, h2, h3, h4⟩
    have o1 : outOfRange 0 14 (.fin p) = false := by
      rw [Bool.eq_false_iff, ne_eq, outOfRange_fin]; push_neg; exact ⟨h1, h2⟩
    have o2 : outOfRange 0 1000 (.fin h) = false := by
      rw [Bool.eq_false_iff, ne_eq, outOfRange_fin]; push_neg; exact ⟨h3, h4⟩
    rw [hv, o1, o2]; rfl
  refine ⟨?_, hin, ?_⟩
  · intro hout
    rw [hv]
    by_cases o1 : outOfRange 0 14 (.fin p) = true
    · exact ⟨.phRange, by simp [o1], Or.inl rfl⟩
    · have o2 : outOfRange 0 1000 (.fin h) = true := by
        rw [outOfRange_fin] at o1 ⊢
        push_neg at o1
        rcases hout with h1 | h1 | h1 | h1
        · linarith [o1.1]
        · linarith [o1.2]
        · exact Or.inl h1
        · exact Or.inr h1
      exact ⟨.hardnessRange, by simp [o1, o2], Or.inr rfl⟩
  · intro h1 h2
    apply hin
    rcases h1 with h1 | h1 <;> rcases h2 with h2 | h2 <;> subst h1 <;> subst h2 <;> norm_num

theorem parseFloat_0 : parseFloat "0" = .fin 0 := by
  rw [parseFloat_of_decimal "0" false 0 0 (by decide)]; norm_num

/-- C10 (witness): the form with ph 0 and hardness 0. -/
theorem validateForm_range_checks_witness :
    ((∀ f, formLowerBounds.get f ≠ "") ∧ parseFloat formLowerBounds.ph = .fin 0
      ∧ parseFloat formLowerBounds.hardness = .fin 0)
    ∧ (((0 : ℚ) < 0 ∨ (14 : ℚ) < 0 ∨ (0 : ℚ) < 0 ∨ (1000 : ℚ) < 0) →
        ∃ e, validateForm parseFloat formLowerBounds = .error e
          ∧ (e = .phRange ∨ e = .hardnessRange))
    ∧ (((0 : ℚ) ≤ 0 ∧ (0 : ℚ) ≤ 14 ∧ (0 : ℚ) ≤ 0 ∧ (0 : ℚ) ≤ 1000) →
        validateForm parseFloat formLowerBounds = .ok (parsedValues parseFloat formLowerBounds))
    ∧ (((0 : ℚ) = 0 ∨ (0 : ℚ) = 14) → ((0 : ℚ) = 0 ∨ (0 : ℚ) = 1000) →
        validateForm parseFloat formLowerBounds
          = .ok (parsedValues parseFloat formLowerBounds)) := by
  have hne : ∀ f, formLowerBounds.get f ≠ "" := by intro f; cases f <;> decide
  exact ⟨⟨hne, parseFloat_0, parseFloat_0⟩,
    validateForm_range_checks parseFloat formLowerBounds 0 0 hne parseFloat_0 parseFloat_0⟩

/-! ## Text: split, join and trim -/

theorem toList_mk (cs : List Char) : (String.mk cs).toList = cs := rfl

theorem mk_toList (s : String) : String.mk s.toList = s := rfl

theorem map_mk_map_toList (parts : List String) :
    (parts.map String.toList).map String.mk = parts := by
  induction parts with
  | nil => rfl
  | cons p ps ih => simp only [List.map_cons, ih, mk_toList]

theorem escapeQuoteChars_eq_join (cs : List Char) :
    escapeQuoteChars cs
      = (cs.map (fun c => if c = dquote then [backslash, dquote] else [c])).flatten := by
  induction cs with
  | nil => rfl
  | cons c cs ih =>
    by_cases h : c = dquote
    · simp [escapeQuoteChars, h, ih]
    · simp [escapeQuoteChars, h, ih]

theorem csvValue_eq_quotedText (numberToString : JSNum → String) (row : Record)
    (header : String) :
    csvValue numberToString row header = quotedText ((row.get header).toText numberToString) := by
  simp only [csvValue, quotedText, toList_mk, escapeQuoteChars_eq_join]

/-! ## CSV export -/

theorem foldl_push_rows (f : Record → String) (data : List Record) (acc : List String) :
    data.foldl (fun csvRows row => csvRows ++ [f row]) acc = acc ++ data.map f := by
  induction data generalizing acc with
  | nil => simp
  | cons row rest ih => simp [ih]

theorem convertToCSV_cons (numberToString : JSNum → String) (first : Record)
    (rest : List Record) :
    convertToCSV numberToString (first :: rest)
      = jsJoin (String.mk [lineFeed])
          (jsJoin "," first.keys :: (first :: rest).map (csvLineOf numberToString first.keys)) := by
  have hline : (fun row => jsJoin "," (first.keys.map (csvValue numberToString row)))
      = csvLineOf numberToString first.keys := by
    funext row
    have hcell : csvValue numberToString row
        = fun key => quotedText ((row.get key).toText numberToString) := by
      funext key
      exact csvValue_eq_quotedText numberToString row key
    simp only [csvLineOf, hcell]
  simp only [convertToCSV, foldl_push_rows, hline]
  rfl

/-- C12: for every non-empty sequence of records, `convertToCSV` returns lines
joined by a newline: the first is the keys of the first record joined by
commas, then exactly one line per record, in order, and each such line is the
values of the record under those keys, each rendered as text with every double
quote preceded by a backslash and then wrapped in double quotes, joined by
commas. -/
theorem convertToCSV_lines (numberToString : JSNum → String) (first : Record)
    (rest : List Record) :
    ∃ lines : List String,
      convertToCSV numberToString (first :: rest) = jsJoin (String.mk [lineFeed]) lines
      ∧ lines.length = (first :: rest).length + 1
      ∧ lines.head? = some (jsJoin "," first.keys)
      ∧ lines.tail = (first :: rest).map (fun row =>
          jsJoin "," (first.keys.map (fun key =>
            quotedText ((row.get key).toText numberToString)))) := by
  refine ⟨jsJoin "," first.keys :: (first :: rest).map (csvLineOf numberToString first.keys),
    convertToCSV_cons numberToString first rest, ?_, rfl, rfl⟩
  simp

/-! ## Records -/

theorem get?_eq_none_iff (r : Record) (key : String) : r.get? key = none ↔ key ∉ r.keys := by
  induction r with
  | nil => simp [Record.get?, Record.keys]
  | cons p rest ih =>
    obtain ⟨k, w⟩ := p
    by_cases h : k = key
    · simp [Record.get?, Record.keys, h]
    · have ih2 : Record.get? rest key = none ↔ key ∉ List.map Prod.fst rest := ih
      simp [Record.get?, Record.keys, h, ih2, Ne.symm h]

theorem get?_isSome_iff (r : Record) (key : String) :
    (r.get? key).isSome = true ↔ key ∈ r.keys := by
  rw [← not_iff_not, ← get?_eq_none_iff]
  cases r.get? key <;> simp

theorem get?_replace (r : Record) (key : String) (v : JSValue) (key2 : String)
    (hmem : key ∈ r.keys) :
    (Record.replace key v r).get? key2 = if key2 = key then some v else r.get? key2 := by
  induction r with
  | nil => simp [Record.keys] at hmem
  | cons p rest ih =>
    obtain ⟨k, w⟩ := p
    by_cases h : k = key
    · subst h
      by_cases h2 : k = key2
      · simp [Record.replace, Record.get?, h2]
      · simp [Record.replace, Record.get?, h2, Ne.symm h2]
    · have hrest : key ∈ Record.keys rest := by
        simp only [Record.keys, List.map_cons, List.mem_cons] at hmem
        rcases hmem with h3 | h3
        · exact absurd h3.symm h
        · exact h3
      by_cases h2 : k = key2
      · subst h2
        simp [Record.replace, Record.get?, h]
      · simp only [Record.replace, h, if_false, Record.get?, h2, ih hrest]

theorem keys_replace (r : Record) (key : String) (v : JSValue) :
    (Record.replace key v r).keys = r.keys := by
  induction r with
  | nil => rfl
  | cons p rest ih =>
    obtain ⟨k, w⟩ := p
    by_cases h : k = key
    · simp [Record.replace, Record.keys, h]
    · have ih2 : List.map Prod.fst (Record.replace key v rest) = List.map Prod.fst rest := ih
      simp [Record.replace, Record.keys, h, ih2]

theorem get?_insertIndexed (r : Record) (n : ℕ) (key : String) (v : JSValue) (key2 : String)
    (hnew : key ∉ r.keys) :
    (Record.insertIndexed n key v r).get? key2 = if key2 = key then some v else r.get? key2 := by
  induction r with
  | nil =>
    by_cases h2 : key = key2
    · simp [Record.insertIndexed, Record.get?, h2]
    · simp [Record.insertIndexed, Record.get?, h2, Ne.symm h2]
  | cons p rest ih =>
    obtain ⟨k, w⟩ := p
    have hk : k ≠ key := by
      intro h; apply hnew; simp [Record.keys, h]
    have hrest : key ∉ Record.keys rest := by
      intro h; apply hnew; simp only [Record.keys, List.map_cons, List.mem_cons]
      exact Or.inr h
    have hfront : Record.get? ((key, v) :: (k, w) :: rest) key2
        = if key2 = key then some v else Record.get? ((k, w) :: rest) key2 := by
      by_cases h2 : key = key2
      · simp [Record.get?, h2]
      · simp [Record.get?, h2, Ne.symm h2]
    unfold Record.insertIndexed
    cases harr : arrayIndex k with
    | none => simpa using hfront
    | some m =>
      by_cases hlt : m < n
      · simp only [hlt, if_true]
        by_cases h2 : k = key2
        · subst h2
          simp [Record.get?, hk]
        · simp only [Record.get?, h2, if_false, ih hrest]
      · simpa [hlt] using hfront

theorem keys_insertIndexed_perm (r : Record) (n : ℕ) (key : String) (v : JSValue) :
    (Record.insertIndexed n key v r).keys.Perm (key :: r.keys) := by
  induction r with
  | nil => simp [Record.insertIndexed, Record.keys]
  | cons p rest ih =>
    obtain ⟨k, w⟩ := p
    unfold Record.insertIndexed
    cases harr : arrayIndex k with
    | none => simp [Record.keys]
    | some m =>
      by_cases hlt : m < n
      · simp only [hlt, if_true, Record.keys, List.map_cons]
        have ih2 : (List.map Prod.fst (Record.insertIndexed n key v rest)).Perm
            (key :: List.map Prod.fst rest) := ih
        exact (List.Perm.cons k ih2).trans (List.Perm.swap key k _)
      · simp [hlt, Record.keys]

theorem get?_append_single (r : Record) (key : String) (v : JSValue) (key2 : String)
    (hnew : key ∉ r.keys) :
    Record.get? (r ++ [(key, v)]) key2 = if key2 = key then some v else r.get? key2 := by
  induction r with
  | nil =>
    by_cases h2 : key = key2
    · simp [Record.get?, h2]
    · simp [Record.get?, h2, Ne.symm h2]
  | cons p rest ih =>
    obtain ⟨k, w⟩ := p
    have hk : k ≠ key := by
      intro h; apply hnew; simp [Record.keys, h]
    have hrest : key ∉ Record.keys rest := by
      intro h; apply hnew; simp only [Record.keys, List.map_cons, List.mem_cons]
      exact Or.inr h
    by_cases h2 : k = key2
    · subst h2
      simp [Record.get?, hk]
    · have ih2 := ih hrest
      simp only [List.cons_append, Record.get?, h2, if_false]
      exact ih2

/-- Reading a property after the own property `key` was defined. -/
theorem get?_define (r : Record) (key : String) (v : JSValue) (key2 : String) :
    (r.define key v).get? key2 = if key2 = key then some v else r.get? key2 := by
  unfold Record.define
  by_cases hmem : key ∈ r.keys
  · rw [if_pos ((get?_isSome_iff r key).2 hmem)]
    exact get?_replace r key v key2 hmem
  · have hnone : ¬ ((r.get? key).isSome = true) := fun h => hmem ((get?_isSome_iff r key).1 h)
    rw [if_neg hnone]
    cases arrayIndex key with
    | none => exact get?_append_single r key v key2 hmem
    | some n => exact get?_insertIndexed r n key v key2 hmem

/-- The keys after the own property `key` was defined: those of `r`, and `key`
once more when it is new. -/
theorem keys_define_perm (r : Record) (key : String) (v : JSValue) :
    (r.define key v).keys.Perm (if key ∈ r.keys then r.keys else key :: r.keys) := by
  unfold Record.define
  by_cases hmem : key ∈ r.keys
  · rw [if_pos ((get?_isSome_iff r key).2 hmem), if_pos hmem, keys_replace]
  · have hnone : ¬ ((r.get? key).isSome = true) := fun h => hmem ((get?_isSome_iff r key).1 h)
    rw [if_neg hnone, if_neg hmem]
    cases arrayIndex key with
    | none =>
      simp only [Record.keys, List.map_append, List.map_cons, List.map_nil]
      exact List.perm_append_singleton key _
    | some n => exact keys_insertIndexed_perm r n key v

theorem mem_keys_define (r : Record) (key : String) (v : JSValue) (key2 : String) :
    key2 ∈ (r.define key v).keys ↔ key2 = key ∨ key2 ∈ r.keys := by
  rw [(keys_define_perm r key v).mem_iff]
  by_cases hmem : key ∈ r.keys
  · rw [if_pos hmem]
    constructor
    · exact Or.inr
    · rintro (h | h)
      · rw [h]; exact hmem
      · exact h
  · rw [if_neg hmem, List.mem_cons]

theorem assign_of_ne_proto (r : Record) (key : String) (v : JSValue)
    (h : key ≠ "__proto__") : r.assign key v = r.define key v := by
  simp [Record.assign, h]

theorem assign_proto_of_not_own (r : Record) (v : JSValue) (h : "__proto__" ∉ r.keys) :
    r.assign "__proto__" v = r := by
  have hnone : r.get? "__proto__" = none := (get?_eq_none_iff r "__proto__").2 h
  simp [Record.assign, hnone]

theorem assign_proto_of_own (r : Record) (v : JSValue) (h : "__proto__" ∈ r.keys) :
    r.assign "__proto__" v = r.define "__proto__" v := by
  have hsome : (r.get? "__proto__").isSome = true := (get?_isSome_iff r "__proto__").2 h
  have hnot : (r.get? "__proto__").isNone = false := by
    cases hg : r.get? "__proto__" with
    | none => rw [hg] at hsome; exact Bool.noConfusion hsome
    | some w => rfl
  simp [Record.assign, hnot]

/-- Reading another property after the assignment `r[key] = v`. -/
theorem get?_assign_of_ne (r : Record) (key : String) (v : JSValue) (key2 : String)
    (h : key2 ≠ key) : (r.assign key v).get? key2 = r.get? key2 := by
  by_cases hp : key = "__proto__"
  · subst hp
    by_cases hown : "__proto__" ∈ r.keys
    · rw [assign_proto_of_own r v hown, get?_define, if_neg h]
    · rw [assign_proto_of_not_own r v hown]
  · rw [assign_of_ne_proto r key v hp, get?_define, if_neg h]

/-- Reading the property `key` after the assignment `r[key] = v`, for a key
other than `__proto__`. -/
theorem get?_assign_self (r : Record) (key : String) (v : JSValue)
    (h : key ≠ "__proto__") : (r.assign key v).get? key = some v := by
  rw [assign_of_ne_proto r key v h, get?_define, if_pos rfl]

/-- The keys after the assignment `r[key] = v`: those of `r`, and `key` when it
is not `__proto__`. -/
theorem mem_keys_assign (r : Record) (key : String) (v : JSValue) (key2 : String) :
    key2 ∈ (r.assign key v).keys ↔ key2 ∈ r.keys ∨ (key2 = key ∧ key ≠ "__proto__") := by
  by_cases hp : key = "__proto__"
  · subst hp
    by_cases hown : "__proto__" ∈ r.keys
    · rw [assign_proto_of_own r v hown, mem_keys_define]
      constructor
      · rintro (h | h)
        · rw [h]; exact Or.inl hown
        · exact Or.inl h
      · rintro (h | ⟨-, h⟩)
        · exact Or.inr h
        · exact absurd rfl h
    · rw [assign_proto_of_not_own r v hown]
      constructor
      · exact Or.inl
      · rintro (h | ⟨-, h⟩)
        · exact h
        · exact absurd rfl h
  · rw [assign_of_ne_proto r key v hp, mem_keys_define]
    constructor
    · rintro (h | h)
      · exact Or.inr ⟨h, hp⟩
      · exact Or.inl h
    · rintro (h | ⟨h, -⟩)
      · exact Or.inr h
      · exact Or.inl h

/-- The number of keys after the assignment of a new key: one more, unless the
key is `__proto__`. -/
theorem length_keys_assign (r : Record) (key : String) (v : JSValue) (hnew : key ∉ r.keys) :
    (r.assign key v).keys.length
      = r.keys.length + (if key = "__proto__" then 0 else 1) := by
  by_cases hp : key = "__proto__"
  · subst hp
    rw [assign_proto_of_not_own r v hnew, if_pos rfl, Nat.add_zero]
  · have hperm := keys_define_perm r key v
    rw [if_neg hnew] at hperm
    rw [assign_of_ne_proto r key v hp, hperm.length_eq, if_neg hp, List.length_cons]

/-! ## CSV ingestion -/

theorem collectEntries_eq (headers : List String) (lines : List String) (data : List Record) :
    collectEntries headers lines data
      = data ++ (lines.filter (fun line => !isBlankLine line)).map (buildEntry headers) := by
  induction lines generalizing data with
  | nil => simp [collectEntries]
  | cons line rest ih =>
    by_cases hb : jsTrim line = ""
    · simp [collectEntries, hb, ih, isBlankLine]
    · simp [collectEntries, hb, ih, isBlankLine]

theorem parseCSV_eq (content : String) :
    parseCSV content
      = ((csvLaterLines content).filter (fun line => !isBlankLine line)).map
          (buildEntry (jsSplit ',' (csvFirstLine content))) := by
  simp only [parseCSV, collectEntries_eq, csvLaterLines, csvFirstLine, List.nil_append]

theorem get?_fillEntry_of_not_mem (values : List String) (headers : List String) (index : ℕ)
    (entry : Record) (key : String) (hkey : key ∉ headers.map jsTrim) :
    (fillEntry values index headers entry).get? key = entry.get? key := by
  induction headers generalizing index entry with
  | nil => rfl
  | cons header rest ih =>
    simp only [List.map_cons, List.mem_cons, not_or] at hkey
    simp only [fillEntry]
    rw [ih (index + 1) _ hkey.2, get?_assign_of_ne _ _ _ _ hkey.1]

theorem get?_fillEntry (values : List String) (headers : List String) (index : ℕ)
    (entry : Record) (hnodup : (headers.map jsTrim).Nodup) (i : ℕ) (name : String)
    (hname : (headers.map jsTrim)[i]? = some name) (hproto : name ≠ "__proto__") :
    (fillEntry values index headers entry).get? name
      = some (.string (cellAt values (index + i))) := by
  induction headers generalizing index entry i with
  | nil => simp at hname
  | cons header rest ih =>
    simp only [List.map_cons, List.nodup_cons] at hnodup
    simp only [fillEntry]
    cases i with
    | zero =>
      simp only [List.map_cons, List.getElem?_cons_zero, Option.some.injEq] at hname
      subst hname
      rw [get?_fillEntry_of_not_mem values rest (index + 1) _ _ hnodup.1,
        get?_assign_self _ _ _ hproto]
      rfl
    | succ j =>
      simp only [List.map_cons, List.getElem?_cons_succ] at hname
      rw [ih (index + 1) _ hnodup.2 j hname]
      have : index + 1 + j = index + (j + 1) := by omega
      rw [this]

theorem mem_keys_fillEntry (values : List String) (headers : List String) (index : ℕ)
    (entry : Record) (key : String) :
    key ∈ (fillEntry values index headers entry).keys
      ↔ key ∈ entry.keys ∨ (key ∈ headers.map jsTrim ∧ key ≠ "__proto__") := by
  induction headers generalizing index entry with
  | nil => simp [fillEntry]
  | cons header rest ih =>
    simp only [fillEntry, ih, mem_keys_assign, List.map_cons, List.mem_cons]
    constructor
    · rintro ((h | ⟨h, hp⟩) | ⟨h, hp⟩)
      · exact Or.inl h
      · exact Or.inr ⟨Or.inl h, by rw [h]; exact hp⟩
      · exact Or.inr ⟨Or.inr h, hp⟩
    · rintro (h | ⟨h | h, hp⟩)
      · exact Or.inl (Or.inl h)
      · exact Or.inl (Or.inr ⟨h, by rw [← h]; exact hp⟩)
      · exact Or.inr ⟨h, hp⟩

theorem length_keys_fillEntry (values : List String) (headers : List String) (index : ℕ)
    (entry : Record) (hnodup : (headers.map jsTrim).Nodup)
    (hnew : ∀ key ∈ headers.map jsTrim, key ∉ entry.keys) :
    (fillEntry values index headers entry).keys.length
      = entry.keys.length
        + ((headers.map jsTrim).filter (fun key => decide (key ≠ "__proto__"))).length := by
  induction headers generalizing index entry with
  | nil => simp [fillEntry]
  | cons header rest ih =>
    simp only [List.map_cons, List.nodup_cons] at hnodup
    have hhead : jsTrim header ∉ entry.keys := hnew _ (by simp)
    have hlen := length_keys_assign entry (jsTrim header) (.string (cellAt values index)) hhead
    simp only [fillEntry]
    rw [ih (index + 1) _ hnodup.2, hlen]
    · by_cases hp : jsTrim header = "__proto__"
      · simp [hp]
      · simp [hp]
        omega
    · intro key hkey hmem
      rw [mem_keys_assign] at hmem
      rcases hmem with h | ⟨h, -⟩
      · exact hnew key (by simp [hkey]) h
      · rw [h] at hkey; exact hnodup.1 hkey

theorem jsTrim_empty : jsTrim "" = "" := by decide

theorem cellAt_eq_trimmedValue (line : String) (i : ℕ) :
    cellAt (jsSplit ',' line) i = trimmedValue line i := by
  unfold cellAt trimmedValue
  cases h : (jsSplit ',' line)[i]? with
  | none => rfl
  | some value =>
    by_cases hv : value = ""
    · simp [jsNot, hv, jsTrim_empty]
    · simp [jsNot, hv]

theorem headerNames_eq (line : String) :
    headerNames line = (jsSplit ',' line).map jsTrim := rfl

/-- Ingestion takes the first line of the content as the header, blank or not
(split on commas, each name trimmed; the name `__proto__` gives no key), and
builds records only from the non-blank lines after that first line; when the
first line is not blank this is ingestion from the first non-blank line. -/
theorem parseCSV_header_is_first_line (content : String) :
    parseCSV content
      = ((csvLaterLines content).filter (fun line => !isBlankLine line)).map
          (buildEntry (jsSplit ',' (csvFirstLine content)))
    ∧ (∀ r ∈ parseCSV content, ∀ key,
        key ∈ r.keys ↔ key ∈ headerNames (csvFirstLine content) ∧ key ≠ "__proto__")
    ∧ (isBlankLine (csvFirstLine content) = false →
        parseCSV content = ingestFromFirstNonBlank content) := by
  refine ⟨parseCSV_eq content, ?_, ?_⟩
  · intro r hr key
    rw [parseCSV_eq, List.mem_map] at hr
    obtain ⟨line, -, rfl⟩ := hr
    simp only [buildEntry, mem_keys_fillEntry, headerNames_eq]
    simp [Record.keys]
  · intro hfirst
    rw [parseCSV_eq]
    unfold ingestFromFirstNonBlank csvLaterLines
    unfold csvFirstLine at hfirst ⊢
    cases hlines : jsSplit lineFeed content with
    | nil => rfl
    | cons first later =>
      rw [hlines] at hfirst
      simp only [List.headD_cons] at hfirst
      simp [List.dropWhile, hfirst]

/-- C13 (failing input): for a content that begins with a blank line the
header is that blank line, not the first non-blank line `ph`: both `ph` and
`7.5` become records under the empty name, where ingestion from the first
non-blank line gives the one record with 7.5 under ph. -/
theorem parseCSV_leading_blank_line :
    parseCSV csvLeadingBlank = [[("", .string "ph")], [("", .string "7.5")]]
    ∧ ingestFromFirstNonBlank csvLeadingBlank = [[("ph", .string "7.5")]]
    ∧ (parseCSV csvLeadingBlank).length ≠ (ingestFromFirstNonBlank csvLeadingBlank).length :=
  ⟨rfl, rfl, by decide⟩

/-- C18 (as amended): for every CSV content whose first line is a header of
distinct (trimmed) names, ingestion yields exactly one record per non-blank
line after the header, in the same order, and the record for a line maps the
`i`-th trimmed header name, unless that name is `__proto__`, to the trimmed
`i`-th comma-separated value of that line (the empty string when the line has
no `i`-th value); the name `__proto__` gives no key, and the record has no
other key, so values beyond the length of the header are dropped. -/
theorem parseCSV_records (content : String)
    (hdistinct : (headerNames (csvFirstLine content)).Nodup) :
    parseCSV content
      = ((csvLaterLines content).filter (fun line => !isBlankLine line)).map
          (buildEntry (jsSplit ',' (csvFirstLine content)))
    ∧ ∀ line,
        (∀ i name, (headerNames (csvFirstLine content))[i]? = some name →
          name ≠ "__proto__" →
          (buildEntry (jsSplit ',' (csvFirstLine content)) line).get? name
            = some (.string (trimmedValue line i)))
        ∧ (buildEntry (jsSplit ',' (csvFirstLine content)) line).get? "__proto__" = none
        ∧ (buildEntry (jsSplit ',' (csvFirstLine content)) line).keys.length
            = ((headerNames (csvFirstLine content)).filter
                (fun key => decide (key ≠ "__proto__"))).length
        ∧ (∀ key, key ∈ (buildEntry (jsSplit ',' (csvFirstLine content)) line).keys
            ↔ key ∈ headerNames (csvFirstLine content) ∧ key ≠ "__proto__") := by
  have hkeys : ∀ line key,
      key ∈ (buildEntry (jsSplit ',' (csvFirstLine content)) line).keys
        ↔ key ∈ headerNames (csvFirstLine content) ∧ key ≠ "__proto__" := by
    intro line key
    simp only [buildEntry, mem_keys_fillEntry, headerNames_eq]
    simp [Record.keys]
  refine ⟨parseCSV_eq content, fun line => ⟨?_, ?_, ?_, hkeys line⟩⟩
  · intro i name hname hproto
    rw [headerNames_eq] at hname hdistinct
    simp only [buildEntry]
    rw [get?_fillEntry _ _ 0 [] hdistinct i name hname hproto, Nat.zero_add,
      cellAt_eq_trimmedValue]
  · rw [get?_eq_none_iff, hkeys]
    exact fun h => h.2 rfl
  · rw [headerNames_eq] at hdistinct ⊢
    simp only [buildEntry]
    rw [length_keys_fillEntry _ _ 0 [] hdistinct (by simp [Record.keys])]
    simp [Record.keys]

/-- C18 (witness): a header of two names, a line with three values, a blank
line and a line with one value. -/
theorem parseCSV_records_witness :
    (headerNames (csvFirstLine csvRagged)).Nodup
    ∧ parseCSV csvRagged
        = [[("ph", .string "7.5"), ("hardness", .string "200")],
           [("ph", .string "6.8"), ("hardness", .string "")]]
    ∧ parseCSV csvRagged
      = ((csvLaterLines csvRagged).filter (fun line => !isBlankLine line)).map
          (buildEntry (jsSplit ',' (csvFirstLine csvRagged))) :=
  ⟨by decide, rfl, (parseCSV_records csvRagged (by decide)).1⟩

/-- C18 (counterexample): under the header of the two distinct names
`__proto__` and `a`, the line `1,2` gives a record with the one key `a`: the
name `__proto__` is not mapped to the value 1. -/
theorem parseCSV_proto_header :
    headerNames (csvFirstLine csvProtoHeader) = ["__proto__", "a"]
    ∧ (headerNames (csvFirstLine csvProtoHeader)).Nodup
    ∧ trimmedValue "1,2" 0 = "1"
    ∧ parseCSV csvProtoHeader = [[("a", .string "2")]]
    ∧ Record.get? [("a", .string "2")] "__proto__" = none :=
  ⟨by decide, by decide, by decide, rfl, rfl⟩

/-! ## Splitting a joined text -/

theorem splitChars_ne_nil (sep : Char) (cs : List Char) : splitChars sep cs ≠ [] := by
  induction cs with
  | nil => simp [splitChars]
  | cons c cs ih =>
    unfold splitChars
    split_ifs
    · simp
    · cases h : splitChars sep cs with
      | nil => simp
      | cons piece pieces => simp

theorem splitChars_of_not_mem (sep : Char) (piece : List Char) (h : sep ∉ piece) :
    splitChars sep piece = [piece] := by
  induction piece with
  | nil => rfl
  | cons c cs ih =>
    simp only [List.mem_cons, not_or] at h
    have hc : c ≠ sep := fun hc => h.1 hc.symm
    simp [splitChars, hc, ih h.2]

theorem splitChars_append_sep (sep : Char) (piece rest : List Char) (h : sep ∉ piece) :
    splitChars sep (piece ++ sep :: rest) = piece :: splitChars sep rest := by
  induction piece with
  | nil => simp [splitChars]
  | cons c cs ih =>
    simp only [List.mem_cons, not_or] at h
    have hc : c ≠ sep := fun hc => h.1 hc.symm
    simp [splitChars, hc, ih h.2]

theorem splitChars_joinChars (sep : Char) (pieces : List (List Char)) (hne : pieces ≠ [])
    (h : ∀ piece ∈ pieces, sep ∉ piece) :
    splitChars sep (joinChars [sep] pieces) = pieces := by
  induction pieces with
  | nil => exact absurd rfl hne
  | cons piece rest ih =>
    cases rest with
    | nil => simpa [joinChars] using splitChars_of_not_mem sep piece (h piece (by simp))
    | cons next more =>
      have hpiece : sep ∉ piece := h piece (by simp)
      have hrest : ∀ q ∈ next :: more, sep ∉ q := fun q hq => h q (List.mem_cons_of_mem _ hq)
      simp only [joinChars, List.append_assoc, List.singleton_append]
      rw [splitChars_append_sep sep piece _ hpiece, ih (by simp) hrest]

theorem jsSplit_jsJoin (sep : Char) (parts : List String) (hne : parts ≠ [])
    (h : ∀ part ∈ parts, sep ∉ part.toList) :
    jsSplit sep (jsJoin (String.mk [sep]) parts) = parts := by
  simp only [jsSplit, jsJoin, toList_mk]
  rw [splitChars_joinChars sep _ (by simpa using hne)]
  · exact map_mk_map_toList parts
  · intro piece hpiece
    rw [List.mem_map] at hpiece
    obtain ⟨part, hpart, rfl⟩ := hpiece
    exact h part hpart

theorem mem_joinChars (sep : List Char) (pieces : List (List Char)) (c : Char)
    (hc : c ∈ joinChars sep pieces) : c ∈ sep ∨ ∃ piece ∈ pieces, c ∈ piece := by
  induction pieces with
  | nil => simp [joinChars] at hc
  | cons piece rest ih =>
    cases rest with
    | nil => exact Or.inr ⟨piece, by simp, by simpa [joinChars] using hc⟩
    | cons next more =>
      simp only [joinChars, List.mem_append] at hc
      rcases hc with (h1 | h1) | h1
      · exact Or.inr ⟨piece, by simp, h1⟩
      · exact Or.inl h1
      · rcases ih h1 with h2 | ⟨q, hq, h2⟩
        · exact Or.inl h2
        · exact Or.inr ⟨q, List.mem_cons_of_mem _ hq, h2⟩

theorem mem_toList_jsJoin (sep : Char) (parts : List String) (c : Char)
    (hc : c ∈ (jsJoin (String.mk [sep]) parts).toList) :
    c = sep ∨ ∃ part ∈ parts, c ∈ part.toList := by
  simp only [jsJoin, toList_mk] at hc
  rcases mem_joinChars _ _ c hc with h | ⟨piece, hpiece, h⟩
  · exact Or.inl (by simpa using h)
  · rw [List.mem_map] at hpiece
    obtain ⟨part, hpart, rfl⟩ := hpiece
    exact Or.inr ⟨part, hpart, h⟩

theorem dropWhile_of_head (p : Char → Bool) (c : Char) (cs : List Char) (h : p c = false) :
    (c :: cs).dropWhile p = c :: cs := by
  simp [List.dropWhile, h]

theorem trimChars_wrapped (a b : Char) (mid : List Char) (ha : isJSWhitespace a = false)
    (hb : isJSWhitespace b = false) :
    trimChars (a :: (mid ++ [b])) = a :: (mid ++ [b]) := by
  unfold trimChars
  rw [dropWhile_of_head _ a _ ha]
  have hrev : (a :: (mid ++ [b])).reverse = b :: (mid.reverse ++ [a]) := by simp
  rw [hrev, dropWhile_of_head _ b _ hb]
  simp

theorem dquote_not_whitespace : isJSWhitespace dquote = false := by decide

theorem jsTrim_wrapQuotes (text : String) : jsTrim (wrapQuotes text) = wrapQuotes text := by
  simp only [jsTrim, wrapQuotes, toList_mk, List.singleton_append, List.cons_append]
  rw [trimChars_wrapped dquote dquote _ dquote_not_whitespace dquote_not_whitespace]

theorem wrapQuotes_ne_empty (text : String) : wrapQuotes text ≠ "" := by
  intro h
  have := congrArg String.toList h
  simp [wrapQuotes, toList_mk] at this

theorem quotedText_eq_wrapQuotes (text : String) (h : dquote ∉ text.toList) :
    quotedText text = wrapQuotes text := by
  have hesc : ∀ cs : List Char, dquote ∉ cs →
      (cs.map (fun c => if c = dquote then [backslash, dquote] else [c])).flatten = cs := by
    intro cs hcs
    induction cs with
    | nil => rfl
    | cons c rest ih =>
      simp only [List.mem_cons, not_or] at hcs
      have hc : c ≠ dquote := fun hc => hcs.1 hc.symm
      simp [hc, ih hcs.2]
  simp only [quotedText, wrapQuotes, hesc _ h]

/-! ## Objects whose keys are assigned in enumeration order -/

theorem keyBefore_irrefl (key : String) : keyBefore key key = false := by
  simp [keyBefore]

theorem insertIndexed_eq_append (r : Record) (n : ℕ) (key : String) (v : JSValue)
    (harr : arrayIndex key = some n) (h : ∀ a ∈ r.keys, keyBefore a key = true) :
    Record.insertIndexed n key v r = r ++ [(key, v)] := by
  induction r with
  | nil => rfl
  | cons p rest ih =>
    obtain ⟨k, w⟩ := p
    have hk : keyBefore k key = true := h k (by simp [Record.keys])
    have hrest : ∀ a ∈ Record.keys rest, keyBefore a key = true := by
      intro a ha
      apply h
      simp only [Record.keys, List.map_cons, List.mem_cons]
      exact Or.inr ha
    unfold Record.insertIndexed
    cases hka : arrayIndex k with
    | none => simp [keyBefore, hka, harr] at hk
    | some m =>
      have hlt : m < n := by
        simp only [keyBefore, hka, harr, Bool.and_eq_true, decide_eq_true_eq] at hk
        exact hk.2
      simp only [hlt, if_true, ih hrest, List.cons_append]

theorem define_eq_append (r : Record) (key : String) (v : JSValue)
    (h : ∀ a ∈ r.keys, keyBefore a key = true) : r.define key v = r ++ [(key, v)] := by
  have hnew : key ∉ r.keys := by
    intro hmem
    have := h key hmem
    rw [keyBefore_irrefl] at this
    exact Bool.noConfusion this
  have hnone : ¬ ((r.get? key).isSome = true) := fun hs => hnew ((get?_isSome_iff r key).1 hs)
  unfold Record.define
  rw [if_neg hnone]
  cases harr : arrayIndex key with
  | none => rfl
  | some n => exact insertIndexed_eq_append r n key v harr h

theorem assign_eq_append (r : Record) (key : String) (v : JSValue)
    (hproto : key ≠ "__proto__") (h : ∀ a ∈ r.keys, keyBefore a key = true) :
    r.assign key v = r ++ [(key, v)] := by
  rw [assign_of_ne_proto r key v hproto]
  exact define_eq_append r key v h

theorem keys_append (r q : Record) : Record.keys (r ++ q) = r.keys ++ q.keys := by
  simp [Record.keys]

theorem fillEntry_eq_append (values : List String) (headers : List String) (index : ℕ)
    (entry : Record)
    (hproto : ∀ key ∈ headers.map jsTrim, key ≠ "__proto__")
    (h : (entry.keys ++ headers.map jsTrim).Pairwise (fun a b => keyBefore a b = true)) :
    fillEntry values index headers entry = entry ++ entryPairs values index headers := by
  induction headers generalizing index entry with
  | nil => simp [fillEntry, entryPairs]
  | cons header rest ih =>
    simp only [List.map_cons] at h
    have hp : jsTrim header ≠ "__proto__" := hproto _ (by simp)
    have hprest : ∀ key ∈ rest.map jsTrim, key ≠ "__proto__" :=
      fun key hkey => hproto key (by simp only [List.map_cons]; exact List.mem_cons_of_mem _ hkey)
    have hhead : ∀ a ∈ entry.keys, keyBefore a (jsTrim header) = true := by
      intro a ha
      exact (List.pairwise_append.1 h).2.2 a ha (jsTrim header) (by simp)
    simp only [fillEntry, entryPairs]
    rw [assign_eq_append entry _ _ hp hhead, ih _ _ hprest]
    · simp
    · rw [keys_append]
      simpa [Record.keys] using h

theorem getElem?_append_length (pre : List String) (x : String) (post : List String) :
    (pre ++ x :: post)[pre.length]? = some x := by
  rw [List.getElem?_append_right (le_refl _)]
  simp

theorem entryPairs_of_cells (g : String → String) (keys : List String) (pre : List String)
    (hkeys : ∀ k ∈ keys, jsTrim k = k ∧ g k ≠ "" ∧ jsTrim (g k) = g k) :
    entryPairs (pre ++ keys.map g) pre.length keys
      = keys.map (fun k => (k, JSValue.string (g k))) := by
  induction keys generalizing pre with
  | nil => rfl
  | cons k rest ih =>
    obtain ⟨h1, h2, h3⟩ := hkeys k (by simp)
    have hcell : cellAt (pre ++ (k :: rest).map g) pre.length = g k := by
      simp only [cellAt, List.map_cons, getElem?_append_length, jsNot, h2, decide_False,
        Bool.false_eq_true, if_false, h3]
    have hrest := ih (pre ++ [g k]) (fun k2 hk2 => hkeys k2 (List.mem_cons_of_mem _ hk2))
    simp only [List.length_append, List.length_singleton, List.append_assoc,
      List.singleton_append] at hrest
    simp only [List.map_cons] at hcell hrest
    simp only [entryPairs, List.map_cons, h1, hcell, hrest]

theorem get?_of_mem (r : Record) (hnodup : r.keys.Nodup) (kv : String × JSValue)
    (hmem : kv ∈ r) : r.get? kv.1 = some kv.2 := by
  induction r with
  | nil => simp at hmem
  | cons p rest ih =>
    obtain ⟨k, w⟩ := p
    simp only [Record.keys, List.map_cons, List.nodup_cons] at hnodup
    rcases List.mem_cons.1 hmem with h | h
    · subst h
      simp [Record.get?]
    · have hne : k ≠ kv.1 := by
        intro hk
        apply hnodup.1
        rw [hk]
        exact List.mem_map_of_mem Prod.fst h
      simp only [Record.get?, hne, if_false]
      exact ih hnodup.2 h

theorem nodup_of_pairwise_keyBefore (keys : List String)
    (h : keys.Pairwise (fun a b => keyBefore a b = true)) : keys.Nodup := by
  refine List.Pairwise.imp ?_ h
  intro a b hab heq
  rw [heq, keyBefore_irrefl] at hab
  exact Bool.noConfusion hab

/-! ## Export followed by ingestion -/

theorem trimChars_ne_nil (c : Char) (cs : List Char) (hc : isJSWhitespace c = false) :
    trimChars (c :: cs) ≠ [] := by
  unfold trimChars
  rw [dropWhile_of_head _ c cs hc]
  intro h
  have h2 : ((c :: cs).reverse.dropWhile isJSWhitespace) = [] := by
    simpa using congrArg List.reverse h
  rw [List.dropWhile_eq_nil_iff] at h2
  have := h2 c (by simp)
  rw [hc] at this
  exact Bool.noConfusion this

theorem joinChars_head (sep : List Char) (c : Char) (cs : List Char)
    (pieces : List (List Char)) :
    ∃ tail, joinChars sep ((c :: cs) :: pieces) = c :: tail := by
  cases pieces with
  | nil => exact ⟨cs, rfl⟩
  | cons next more => exact ⟨cs ++ sep ++ joinChars sep (next :: more), rfl⟩

theorem comma_eq : "," = String.mk [','] := rfl

theorem wrapQuotes_toList (text : String) :
    (wrapQuotes text).toList = dquote :: (text.toList ++ [dquote]) := rfl

/-- The cells of an exported line, for a record of clean strings. -/
theorem exported_cell (numberToString : JSNum → String) (r : Record) (hnodup : r.keys.Nodup)
    (kv : String × JSValue) (hmem : kv ∈ r) (text : String) (htext : kv.2 = .string text)
    (hq : dquote ∉ text.toList) :
    quotedText ((r.get kv.1).toText numberToString) = wrapQuotes text := by
  simp only [Record.get, get?_of_mem r hnodup kv hmem, Option.getD_some, htext, JSValue.toText]
  exact quotedText_eq_wrapQuotes text hq

theorem map_keys_eq (r : Record) (f : String → String × JSValue) :
    r.keys.map f = r.map (fun kv => f kv.1) := by
  simp [Record.keys, List.map_map, Function.comp_def]

theorem buildEntry_csvLineOf (numberToString : JSNum → String) (r : Record)
    (hne : r.keys ≠ [])
    (horder : r.keys.Pairwise (fun a b => keyBefore a b = true))
    (hkeychars : ∀ k ∈ r.keys, ',' ∉ k.toList ∧ lineFeed ∉ k.toList ∧ jsTrim k = k)
    (hproto : ∀ k ∈ r.keys, k ≠ "__proto__")
    (hvalues : ∀ kv ∈ r, ∃ text, kv.2 = .string text ∧ ',' ∉ text.toList
      ∧ dquote ∉ text.toList ∧ lineFeed ∉ text.toList) :
    buildEntry r.keys (csvLineOf numberToString r.keys r) = quoteValues r
    ∧ isBlankLine (csvLineOf numberToString r.keys r) = false
    ∧ lineFeed ∉ (csvLineOf numberToString r.keys r).toList := by
  have hnodup := nodup_of_pairwise_keyBefore r.keys horder
  have hcellOf : ∀ k ∈ r.keys, ∃ text, quotedText ((r.get k).toText numberToString)
      = wrapQuotes text ∧ ',' ∉ text.toList ∧ lineFeed ∉ text.toList := by
    intro k hk
    simp only [Record.keys, List.mem_map] at hk
    obtain ⟨kv, hkv, rfl⟩ := hk
    obtain ⟨text, htext, h1, h2, h3⟩ := hvalues kv hkv
    exact ⟨text, exported_cell numberToString r hnodup kv hkv text htext h2, h1, h3⟩
  have hcells : ∀ cell ∈ r.keys.map (fun key => quotedText ((r.get key).toText numberToString)),
      ',' ∉ cell.toList ∧ lineFeed ∉ cell.toList := by
    intro cell hcell
    rw [List.mem_map] at hcell
    obtain ⟨k, hk, rfl⟩ := hcell
    obtain ⟨text, htext, h1, h3⟩ := hcellOf k hk
    rw [htext, wrapQuotes_toList]
    constructor
    · simp only [List.mem_cons, List.mem_append, List.mem_singleton, not_or]
      exact ⟨by decide, h1, by decide⟩
    · simp only [List.mem_cons, List.mem_append, List.mem_singleton, not_or]
      exact ⟨by decide, h3, by decide⟩
  have hsplit : jsSplit ',' (csvLineOf numberToString r.keys r)
      = r.keys.map (fun key => quotedText ((r.get key).toText numberToString)) := by
    unfold csvLineOf
    rw [comma_eq]
    exact jsSplit_jsJoin ',' _ (by simpa using hne) (fun cell hcell => (hcells cell hcell).1)
  refine ⟨?_, ?_, ?_⟩
  · have htrim : r.keys.map jsTrim = r.keys := by
      rw [List.map_congr_left (fun k hk => (hkeychars k hk).2.2)]
      exact List.map_id' r.keys
    have horder2 : (Record.keys [] ++ r.keys.map jsTrim).Pairwise
        (fun a b => keyBefore a b = true) := by
      rw [htrim]
      exact horder
    simp only [buildEntry, hsplit]
    rw [fillEntry_eq_append _ _ 0 [] (by rw [htrim]; exact hproto) horder2]
    have hpairs := entryPairs_of_cells
      (fun key => quotedText ((r.get key).toText numberToString)) r.keys []
      (by
        intro k hk
        obtain ⟨text, htext, -, -⟩ := hcellOf k hk
        refine ⟨(hkeychars k hk).2.2, ?_, ?_⟩
        · simp only [htext]; exact wrapQuotes_ne_empty text
        · simp only [htext]; exact jsTrim_wrapQuotes text)
    simp only [List.nil_append, List.length_nil] at hpairs
    rw [List.nil_append, hpairs, map_keys_eq]
    unfold quoteValues
    apply List.map_congr_left
    intro kv hkv
    obtain ⟨text, htext, -, h2, -⟩ := hvalues kv hkv
    rw [exported_cell numberToString r hnodup kv hkv text htext h2, htext]
  · cases hk : r.keys with
    | nil => exact absurd hk hne
    | cons k rest =>
      obtain ⟨text, htext, -, -⟩ := hcellOf k (by rw [hk]; simp)
      have hline : ∃ tail, (csvLineOf numberToString r.keys r).toList = dquote :: tail := by
        simp only [csvLineOf, jsJoin, toList_mk, hk, List.map_cons, htext, wrapQuotes_toList]
        exact joinChars_head _ dquote _ _
      obtain ⟨tail, htail⟩ := hline
      rw [← hk]
      simp only [isBlankLine, decide_eq_false_iff_not]
      intro hblank
      have := congrArg String.toList hblank
      simp only [jsTrim, toList_mk, htail] at this
      exact trimChars_ne_nil dquote tail dquote_not_whitespace this
  · intro hmem
    unfold csvLineOf at hmem
    rw [comma_eq] at hmem
    rcases mem_toList_jsJoin ',' _ lineFeed hmem with h | ⟨cell, hcell, h⟩
    · exact absurd h (by decide)
    · exact (hcells cell hcell).2 h

/-- C11 (as amended): for every non-empty dataset of uniform records with at
least one key, whose keys (in the order an object enumerates them) hold no
comma, no line feed and no white space at either end and are none of them
`__proto__`, and whose values are strings holding no comma, no double quote
and no line feed, parsing the text `convertToCSV` gives yields one record per
record of the dataset, in the same order and with the same keys, whose values
are those of the dataset each wrapped in double quotes. -/
theorem parseCSV_convertToCSV (numberToString : JSNum → String) (first : Record)
    (rest : List Record)
    (hne : first.keys ≠ [])
    (huniform : ∀ r ∈ rest, r.keys = first.keys)
    (horder : first.keys.Pairwise (fun a b => keyBefore a b = true))
    (hkeychars : ∀ k ∈ first.keys, ',' ∉ k.toList ∧ lineFeed ∉ k.toList ∧ jsTrim k = k)
    (hproto : ∀ k ∈ first.keys, k ≠ "__proto__")
    (hvalues : ∀ r ∈ first :: rest, ∀ kv ∈ r, ∃ text, kv.2 = .string text
      ∧ ',' ∉ text.toList ∧ dquote ∉ text.toList ∧ lineFeed ∉ text.toList) :
    parseCSV (convertToCSV numberToString (first :: rest)) = (first :: rest).map quoteValues := by
  have hkeysOf : ∀ r ∈ first :: rest, r.keys = first.keys := by
    intro r hr
    rcases List.mem_cons.1 hr with h | h
    · rw [h]
    · exact huniform r h
  have hrow : ∀ r ∈ first :: rest,
      buildEntry first.keys (csvLineOf numberToString first.keys r) = quoteValues r
      ∧ isBlankLine (csvLineOf numberToString first.keys r) = false
      ∧ lineFeed ∉ (csvLineOf numberToString first.keys r).toList := by
    intro r hr
    have hk := hkeysOf r hr
    rw [← hk]
    exact buildEntry_csvLineOf numberToString r (by rw [hk]; exact hne) (by rw [hk]; exact horder)
      (by rw [hk]; exact hkeychars) (by rw [hk]; exact hproto) (hvalues r hr)
  have hheader : jsSplit ',' (jsJoin "," first.keys) = first.keys := by
    rw [comma_eq]
    exact jsSplit_jsJoin ',' _ hne (fun k hk => (hkeychars k hk).1)
  have hheaderLF : lineFeed ∉ (jsJoin "," first.keys).toList := by
    intro hmem
    rw [comma_eq] at hmem
    rcases mem_toList_jsJoin ',' _ lineFeed hmem with h | ⟨k, hk, h⟩
    · exact absurd h (by decide)
    · exact (hkeychars k hk).2.1 h
  have hlines : jsSplit lineFeed (convertToCSV numberToString (first :: rest))
      = jsJoin "," first.keys :: (first :: rest).map (csvLineOf numberToString first.keys) := by
    rw [convertToCSV_cons]
    apply jsSplit_jsJoin lineFeed _ (by simp)
    intro line hline
    rcases List.mem_cons.1 hline with h | h
    · rw [h]; exact hheaderLF
    · rw [List.mem_map] at h
      obtain ⟨r, hr, rfl⟩ := h
      exact (hrow r hr).2.2
  rw [parseCSV_eq]
  simp only [csvLaterLines, csvFirstLine, hlines, List.headD_cons, List.tail_cons, hheader]
  have hfilter : ((first :: rest).map (csvLineOf numberToString first.keys)).filter
      (fun line => !isBlankLine line)
      = (first :: rest).map (csvLineOf numberToString first.keys) := by
    rw [List.filter_eq_self]
    intro line hline
    rw [List.mem_map] at hline
    obtain ⟨r, hr, rfl⟩ := hline
    rw [(hrow r hr).2.1]
    rfl
  rw [hfilter, List.map_map]
  apply List.map_congr_left
  intro r hr
  exact (hrow r hr).1

/-- C11 (witness): a uniform dataset of two records with the keys ph and
hardness. -/
theorem parseCSV_convertToCSV_witness :
    Record.keys [("ph", JSValue.string "7.5"), ("hardness", JSValue.string "200")] ≠ []
    ∧ (∀ numberToString,
        parseCSV (convertToCSV numberToString datasetTwoRows)
          = [[("ph", .string "\"7.5\""), ("hardness", .string "\"200\"")],
             [("ph", .string "\"6.8\""), ("hardness", .string "\"180\"")]]) := by
  refine ⟨by decide, fun numberToString => ?_⟩
  have h := parseCSV_convertToCSV numberToString
    [("ph", .string "7.5"), ("hardness", .string "200")]
    [[("ph", .string "6.8"), ("hardness", .string "180")]]
    (by decide)
    (by intro r hr; simp only [List.mem_singleton] at hr; rw [hr]; rfl)
    (by decide)
    (by
      intro k hk
      simp only [Record.keys, List.map_cons, List.map_nil, List.mem_cons, List.mem_singleton,
        List.not_mem_nil, or_false] at hk
      rcases hk with rfl | rfl <;> decide)
    (by
      intro k hk
      simp only [Record.keys, List.map_cons, List.map_nil, List.mem_cons, List.mem_singleton,
        List.not_mem_nil, or_false] at hk
      rcases hk with rfl | rfl <;> decide)
    (by
      intro r hr kv hkv
      simp only [List.mem_cons, List.mem_singleton, List.not_mem_nil, or_false] at hr
      rcases hr with rfl | rfl
      · simp only [List.mem_cons, List.mem_singleton, List.not_mem_nil, or_false] at hkv
        rcases hkv with rfl | rfl
        · exact ⟨"7.5", rfl, by decide, by decide, by decide⟩
        · exact ⟨"200", rfl, by decide, by decide, by decide⟩
      · simp only [List.mem_cons, List.mem_singleton, List.not_mem_nil, or_false] at hkv
        rcases hkv with rfl | rfl
        · exact ⟨"6.8", rfl, by decide, by decide, by decide⟩
        · exact ⟨"180", rfl, by decide, by decide, by decide⟩)
  exact h

/-- C11 (counterexample): the record with the value 7.5 under ph comes back
with the value 7.5 wrapped in double quotes, whatever the number formatting;
a key with a leading space comes back trimmed, and a value holding a line feed
comes back as two records. -/
theorem roundtrip_changes_values :
    (∀ numberToString,
      parseCSV (convertToCSV numberToString datasetPh) = [[("ph", .string "\"7.5\"")]])
    ∧ (∀ numberToString,
      parseCSV (convertToCSV numberToString datasetSpacedKey) = [[("a", .string "\"1\"")]])
    ∧ (∀ numberToString,
      parseCSV (convertToCSV numberToString datasetTwoLineValue)
        = [[("a", .string "\"x")], [("a", .string "y\"")]])
    ∧ "\"7.5\"" ≠ "7.5" :=
  ⟨fun _ => rfl, fun _ => rfl, fun _ => rfl, by decide⟩

/-! ## File ingestion and the session state -/

theorem endsWith_json_not_csv (fileName : String) (h : jsEndsWith fileName ".json" = true) :
    jsEndsWith fileName ".csv" = false := by
  unfold jsEndsWith at h ⊢
  unfold List.isSuffixOf at h ⊢
  have hjson : (".json".toList).reverse = ['n', 'o', 's', 'j', '.'] := by decide
  have hcsv : (".csv".toList).reverse = ['v', 's', 'c', '.'] := by decide
  rw [hjson] at h
  rw [hcsv]
  cases hrev : fileName.toList.reverse with
  | nil => rfl
  | cons c cs =>
    rw [hrev] at h
    simp only [List.isPrefixOf, Bool.and_eq_true, beq_iff_eq] at h
    have hc : c = 'n' := h.1.symm
    subst hc
    simp [List.isPrefixOf]

theorem handleFileChange_json_error (jsonParse : String → Except String JSValue) (st : Session)
    (fileName content e : String) (hjson : jsEndsWith fileName ".json" = true)
    (hbad : jsonParse content = .error e) :
    handleFileChange jsonParse st fileName content
      = { st with selectedFile := some fileName, useDefaultDataset := false,
                  error := some .parseFile } := by
  simp only [handleFileChange, readerOnload, endsWith_json_not_csv fileName hjson, hjson, hbad,
    selectFile]
  rfl

theorem handleFileChange_json_ok (jsonParse : String → Except String JSValue) (st : Session)
    (fileName content : String) (v : JSValue) (hjson : jsEndsWith fileName ".json" = true)
    (hok : jsonParse content = .ok v) :
    handleFileChange jsonParse st fileName content
      = { st with selectedFile := some fileName, useDefaultDataset := false,
                  datasetData := v } := by
  simp only [handleFileChange, readerOnload, endsWith_json_not_csv fileName hjson, hjson, hok,
    selectFile]
  rfl

/-- C14: for every content declared as JSON (a file name ending in `.json`)
that is not well-formed JSON, ingestion ends in a state whose error is the
parse error, instead of an unhandled failure, and the previously loaded
dataset is left unchanged. -/
theorem malformed_json_sets_parse_error (jsonParse : String → Except String JSValue)
    (st : Session) (fileName content e : String)
    (hjson : jsEndsWith fileName ".json" = true) (hbad : jsonParse content = .error e) :
    (handleFileChange jsonParse st fileName content).error = some .parseFile
    ∧ (handleFileChange jsonParse st fileName content).datasetData = st.datasetData
    ∧ handleFileChange jsonParse st fileName content
        = { st with selectedFile := some fileName, useDefaultDataset := false,
                    error := some .parseFile }
    ∧ ∀ typeErrorText, AppError.parseFile.message typeErrorText
        = "Error parsing file. Please check the file format." := by
  rw [handleFileChange_json_error jsonParse st fileName content e hjson hbad]
  exact ⟨rfl, rfl, rfl, fun _ => rfl⟩

/-- C14 (witness): a malformed content read after the default dataset was
loaded. -/
theorem malformed_json_sets_parse_error_witness :
    (jsEndsWith "data.json" ".json" = true ∧ jsonParse jsonMalformed = .error "SyntaxError")
    ∧ (handleFileChange jsonParse (handleUseDefaultDataset Session.initial) "data.json"
        jsonMalformed).error = some .parseFile
    ∧ (handleFileChange jsonParse (handleUseDefaultDataset Session.initial) "data.json"
        jsonMalformed).datasetData = (handleUseDefaultDataset Session.initial).datasetData :=
  ⟨⟨by decide, rfl⟩,
    (malformed_json_sets_parse_error jsonParse (handleUseDefaultDataset Session.initial)
      "data.json" jsonMalformed "SyntaxError" (by decide) rfl).1,
    (malformed_json_sets_parse_error jsonParse (handleUseDefaultDataset Session.initial)
      "data.json" jsonMalformed "SyntaxError" (by decide) rfl).2.1⟩

/-- C15 (as amended): for every content declared as JSON that is well-formed,
whatever value it denotes, ingestion stores the parsed value as the dataset
and reports no parse error: the error state is left as it was. -/
theorem wellformed_json_is_stored (jsonParse : String → Except String JSValue)
    (st : Session) (fileName content : String) (v : JSValue)
    (hjson : jsEndsWith fileName ".json" = true) (hok : jsonParse content = .ok v) :
    (handleFileChange jsonParse st fileName content).datasetData = v
    ∧ (handleFileChange jsonParse st fileName content).error = st.error
    ∧ handleFileChange jsonParse st fileName content
        = { st with selectedFile := some fileName, useDefaultDataset := false,
                    datasetData := v } := by
  rw [handleFileChange_json_ok jsonParse st fileName content v hjson hok]
  exact ⟨rfl, rfl, rfl⟩

/-- C15 (witness): the content denoting a string. -/
theorem wellformed_json_is_stored_witness :
    (jsEndsWith "data.json" ".json" = true ∧ jsonParse jsonText = .ok (.string "abc"))
    ∧ (handleFileChange jsonParse Session.initial "data.json" jsonText).datasetData
        = .string "abc"
    ∧ (handleFileChange jsonParse Session.initial "data.json" jsonText).error
        = Session.initial.error :=
  ⟨⟨by decide, rfl⟩,
    (wellformed_json_is_stored jsonParse Session.initial "data.json" jsonText (.string "abc")
      (by decide) rfl).1,
    (wellformed_json_is_stored jsonParse Session.initial "data.json" jsonText (.string "abc")
      (by decide) rfl).2.1⟩

theorem toJSNum_five : StrDecimal.toJSNum (.decimal false 5 0) = .fin 5 := by
  simp [StrDecimal.toJSNum]

/-- C15 (counterexample): a single object, a number, a string and an array of
arrays are each stored as the dataset, and no error is set. -/
theorem non_record_json_is_stored :
    ((handleFileChange jsonParse Session.initial "data.json" jsonSingleObject).datasetData
        = .object [("ph", .string "7.5")]
      ∧ (handleFileChange jsonParse Session.initial "data.json" jsonSingleObject).error = none)
    ∧ ((handleFileChange jsonParse Session.initial "data.json" jsonNumber).datasetData
        = .number (.fin 5)
      ∧ (handleFileChange jsonParse Session.initial "data.json" jsonNumber).error = none)
    ∧ ((handleFileChange jsonParse Session.initial "data.json" jsonText).datasetData
        = .string "abc"
      ∧ (handleFileChange jsonParse Session.initial "data.json" jsonText).error = none)
    ∧ ((handleFileChange jsonParse Session.initial "data.json" jsonArrayOfArrays).datasetData
        = .array [.array [.string "a", .string "b"]]
      ∧ (handleFileChange jsonParse Session.initial "data.json" jsonArrayOfArrays).error
        = none) := by
  have hjson : jsEndsWith "data.json" ".json" = true := by decide
  have h1 := handleFileChange_json_ok jsonParse Session.initial "data.json" jsonSingleObject
    (.object [("ph", .string "7.5")]) hjson rfl
  have h2 := handleFileChange_json_ok jsonParse Session.initial "data.json" jsonNumber
    (.number (StrDecimal.toJSNum (.decimal false 5 0))) hjson rfl
  have h3 := handleFileChange_json_ok jsonParse Session.initial "data.json" jsonText
    (.string "abc") hjson rfl
  have h4 := handleFileChange_json_ok jsonParse Session.initial "data.json" jsonArrayOfArrays
    (.array [.array [.string "a", .string "b"]]) hjson rfl
  rw [h1, h2, h3, h4, toJSNum_five]
  exact ⟨⟨rfl, rfl⟩, ⟨rfl, rfl⟩, ⟨rfl, rfl⟩, ⟨rfl, rfl⟩⟩

/-! ## Dataset mode -/

theorem datasetMissing_cons (first : JSValue) (rest : List JSValue) :
    datasetMissing (.array (first :: rest)) = false := by
  have hlen : ((rest.length : ℚ) + 1) ≠ 0 := by positivity
  have hkey : ("length" = "length") = True := by simp
  simp [datasetMissing, JSValue.truthy, JSValue.getProp, hlen]

theorem getProp_zero_cons (first : JSValue) (rest : List JSValue) :
    (JSValue.array (first :: rest)).getProp "0" = some first := by
  have hkey : ¬ ("0" = "length") := by decide
  have hidx : arrayIndex "0" = some 0 := by decide
  simp [JSValue.getProp, hkey, hidx]

theorem datasetPrediction_cons (parseFloat : String → JSNum) (numberToString : JSNum → String)
    (first : Record) (rest : List JSValue) :
    datasetPrediction parseFloat numberToString (.array (.object first :: rest))
      = .ok (classifyPh (parseFloatValue parseFloat numberToString
          (jsOr (first.get "ph") (.number (.fin 0))))) := by
  simp only [datasetPrediction, datasetMissing_cons, getProp_zero_cons, JSValue.getProp]
  rfl

theorem validateWaterQuality_file (parseFloat : String → JSNum)
    (numberToString : JSNum → String) (st : Session) (first : Record) (rest : List JSValue) :
    (validateWaterQuality parseFloat numberToString
        { st with activeTab := .file, datasetData := .array (.object first :: rest) }).2
      = some { prediction := classifyPh (parseFloatValue parseFloat numberToString
                  (jsOr (first.get "ph") (.number (.fin 0))))
               formData := none
               tableData := .array (.object first :: rest) } := by
  simp only [validateWaterQuality, datasetMissing_cons, datasetPrediction_cons]
  rfl

/-- C16: in dataset mode with a non-empty dataset, the published category is
determined by the first row alone (two datasets with the same first row get
the same category, whatever their other rows), and the published payload
carries the whole dataset unchanged and in order as tableData, with formData
null. -/
theorem dataset_mode_publishes (parseFloat : String → JSNum) (numberToString : JSNum → String)
    (st st2 : Session) (first : Record) (rest rest2 : List JSValue) :
    ∃ category,
      (validateWaterQuality parseFloat numberToString
          { st with activeTab := .file, datasetData := .array (.object first :: rest) }).2
        = some { prediction := category, formData := none,
                 tableData := .array (.object first :: rest) }
      ∧ (validateWaterQuality parseFloat numberToString
          { st2 with activeTab := .file, datasetData := .array (.object first :: rest2) }).2
        = some { prediction := category, formData := none,
                 tableData := .array (.object first :: rest2) } :=
  ⟨_, validateWaterQuality_file parseFloat numberToString st first rest,
    validateWaterQuality_file parseFloat numberToString st2 first rest2⟩

theorem classifyPh_eq (ph : JSNum) :
    classifyPh ph
      = if inClosedBand 6.5 8.5 ph then .Good
        else if inClosedBand 6.0 9.0 ph then .Moderate else .Poor := by
  simp only [classifyPh, ge_le_eq_inClosedBand]

/-- C17 (as amended): in dataset mode, for every non-empty dataset whose first
row holds a non-empty text under ph, the published category is the one the ph
of the first row alone gives: Good when the parsed ph is in `[6.5,8.5]`,
otherwise Moderate when it is in `[6.0,9.0]`, otherwise Poor; the other eight
fields are not read. -/
theorem dataset_mode_category_from_ph (parseFloat : String → JSNum)
    (numberToString : JSNum → String) (st : Session) (first : Record) (rest : List JSValue)
    (text : String) (hph : first.get "ph" = .string text) (hne : text ≠ "") :
    (validateWaterQuality parseFloat numberToString
        { st with activeTab := .file, datasetData := .array (.object first :: rest) }).2
      = some { prediction :=
                 if inClosedBand 6.5 8.5 (parseFloat text) then .Good
                 else if inClosedBand 6.0 9.0 (parseFloat text) then .Moderate else .Poor
               formData := none
               tableData := .array (.object first :: rest) } := by
  rw [validateWaterQuality_file, hph, classifyPh_eq]
  have hor : jsOr (.string text) (.number (.fin 0)) = .string text := by
    simp [jsOr, JSValue.truthy, jsNot, hne]
  rw [hor]
  rfl

theorem parseFloat_7_5 : parseFloat "7.5" = .fin 7.5 := by
  rw [parseFloat_of_decimal "7.5" false 75 (-1) (by decide)]; norm_num

/-- C17 (witness): a dataset of one row, with ph 7.5. -/
theorem dataset_mode_category_from_ph_witness :
    (Record.get [("ph", .string "7.5"), ("hardness", .string "200")] "ph" = .string "7.5"
      ∧ "7.5" ≠ "")
    ∧ ∀ numberToString,
      (validateWaterQuality parseFloat numberToString
          { Session.initial with
            activeTab := .file
            datasetData := .array [.object [("ph", .string "7.5"), ("hardness", .string "200")]] }).2
        = some { prediction := .Good, formData := none,
                 tableData := .array [.object [("ph", .string "7.5"),
                   ("hardness", .string "200")]] } := by
  refine ⟨⟨rfl, by decide⟩, fun numberToString => ?_⟩
  have h := dataset_mode_category_from_ph parseFloat numberToString Session.initial
    [("ph", .string "7.5"), ("hardness", .string "200")] [] "7.5" rfl (by decide)
  rw [h, parseFloat_7_5]
  norm_num [inClosedBand]

theorem parseFloat_1000 : parseFloat "1000" = .fin 1000 := by
  rw [parseFloat_of_decimal "1000" false 1000 0 (by decide)]; norm_num

theorem parseFloat_100 : parseFloat "100" = .fin 100 := by
  rw [parseFloat_of_decimal "100" false 100 0 (by decide)]; norm_num

theorem parseFloat_10 : parseFloat "10" = .fin 10 := by
  rw [parseFloat_of_decimal "10" false 10 0 (by decide)]; norm_num

theorem rowSample_rowOnlyPhInBand (numberToString : JSNum → String) :
    rowSample parseFloat numberToString rowOnlyPhInBand
      = { ph := .fin 7.5, hardness := .fin 0, solids := .fin 1000, chloramines := .fin 10,
          sulfate := .fin 1000, conductivity := .fin 0, organic_carbon := .fin 100,
          trihalomethanes := .fin 1000, turbidity := .fin 100 } := by
  have hget : ∀ key text, Record.get rowOnlyPhInBand key = .string text →
      parseFloatValue parseFloat numberToString (Record.get rowOnlyPhInBand key)
        = parseFloat text := by
    intro key text h
    rw [h]
    rfl
  simp only [rowSample]
  rw [hget "ph" "7.5" rfl, hget "hardness" "0" rfl, hget "solids" "1000" rfl,
    hget "chloramines" "10" rfl, hget "sulfate" "1000" rfl, hget "conductivity" "0" rfl,
    hget "organic_carbon" "100" rfl, hget "trihalomethanes" "1000" rfl,
    hget "turbidity" "100" rfl, parseFloat_7_5, parseFloat_0, parseFloat_1000, parseFloat_10,
    parseFloat_100]

/-- C17 (counterexample): a first row with numeric text in all nine fields,
whose ph 7.5 is in its optimal band and whose other fields are all outside
theirs, is published as Good, while the scorer gives it 30 points, which the
80/50 thresholds make Poor. -/
theorem dataset_mode_differs_from_scorer :
    (∀ numberToString,
      (validateWaterQuality parseFloat numberToString
          { Session.initial with
            activeTab := .file, datasetData := .array [.object rowOnlyPhInBand] }).2
        = some { prediction := .Good, formData := none,
                 tableData := .array [.object rowOnlyPhInBand] })
    ∧ (∀ numberToString,
        computeScore (rowSample parseFloat numberToString rowOnlyPhInBand) = 30
        ∧ classify (computeScore (rowSample parseFloat numberToString rowOnlyPhInBand))
            = .Poor) := by
  constructor
  · intro numberToString
    rw [validateWaterQuality_file]
    have hph : Record.get rowOnlyPhInBand "ph" = .string "7.5" := rfl
    have hor : jsOr (.string "7.5") (.number (.fin 0)) = .string "7.5" := by
      simp [jsOr, JSValue.truthy, jsNot]
    have hpf : parseFloatValue parseFloat numberToString (.string "7.5") = .fin 7.5 := by
      simp only [parseFloatValue, JSValue.toText, parseFloat_7_5]
    rw [hph, hor, hpf, classifyPh_eq]
    norm_num [inClosedBand]
  · intro numberToString
    have hscore : computeScore (rowSample parseFloat numberToString rowOnlyPhInBand) = 30 := by
      rw [rowSample_rowOnlyPhInBand]
      norm_num [computeScore, JSNum.lt, JSNum.le, JSNum.ge]
    rw [hscore]
    exact ⟨rfl, by norm_num [classify]⟩

end WaterQuality
